import Mathlib

/-!
# Verification of the vits-tts-vietnamese caching TTS core

A shallow embedding of the request-handling core of the repository:

* `src/vits_tts/core/tts_service.py` — `TTSService.handle_tts_request` and
  `TTSService.handle_tts_streaming_request` (validation, SHA-1 fingerprinting,
  memory/filesystem caching, synthesis delegation, chunked streaming);
* `src/vits_tts/core/caching.py` — `provide_audio_cache` (a cachetools
  `LRUCache(maxsize=128)`);
* `src/vits_tts/tts.py` — `SPEED_VALUES` and the `length_scale` selection in
  `PiperTTS.text_to_speech` / `PiperTTS.text_to_speech_streaming`.

Machine words are `Nat` reduced mod `2 ^ 32`; bytes are `Nat` below 256.
`hashlib.sha1` is implemented in full (FIPS 180-1) so that fingerprints are
computed, not abstracted.
-/

/-! ## SHA-1 (`hashlib.sha1(...).hexdigest()`) -/

def w32 : Nat := 2 ^ 32

/-- Left rotation of a 32-bit word. -/
def rotl (n b : Nat) : Nat := ((b <<< n) ||| (b >>> (32 - n))) % w32

/-- The SHA-1 round function for round `t`. -/
def sha1F (t b c d : Nat) : Nat :=
  if t < 20 then (b &&& c) ||| ((b ^^^ 0xFFFFFFFF) &&& d)
  else if t < 40 then b ^^^ c ^^^ d
  else if t < 60 then (b &&& c) ||| (b &&& d) ||| (c &&& d)
  else b ^^^ c ^^^ d

/-- The SHA-1 round constant for round `t`. -/
def sha1K (t : Nat) : Nat :=
  if t < 20 then 0x5A827999
  else if t < 40 then 0x6ED9EBA1
  else if t < 60 then 0x8F1BBCDC
  else 0xCA62C1D6

/-- Extend the reversed word list (head = most recent word) by `n` schedule words. -/
def sha1ExtendRev : Nat → List Nat → List Nat
  | 0, rws => rws
  | n + 1, rws =>
      let x := rotl 1 ((rws.getD 2 0) ^^^ (rws.getD 7 0) ^^^ (rws.getD 13 0) ^^^ (rws.getD 15 0))
      sha1ExtendRev n (x :: rws)

/-- Message schedule: 16 block words extended to 80. -/
def sha1Schedule (ws : List Nat) : List Nat := (sha1ExtendRev 64 ws.reverse).reverse

/-- The 80 compression rounds; `t` is the round index. -/
def sha1Rounds : Nat → List Nat → Nat × Nat × Nat × Nat × Nat → Nat × Nat × Nat × Nat × Nat
  | _, [], st => st
  | t, w :: ws, (a, b, c, d, e) =>
      let tmp := (rotl 5 a + sha1F t b c d + e + w + sha1K t) % w32
      sha1Rounds (t + 1) ws (tmp, a, rotl 30 b, c, d)

/-- Group bytes into big-endian 32-bit words (the byte count is a multiple of 4
for every padded block). -/
def bytesToWords : List Nat → List Nat
  | b0 :: b1 :: b2 :: b3 :: rest =>
      (b0 * 2 ^ 24 + b1 * 2 ^ 16 + b2 * 2 ^ 8 + b3) :: bytesToWords rest
  | _ => []

/-- Fuel-driven chunking loop; with `1 ≤ n` and fuel at least the list length it
splits the list into contiguous chunks of `n` elements, the last possibly shorter. -/
def chunksOfF (n : Nat) : Nat → List α → List (List α)
  | 0, _ => []
  | _ + 1, [] => []
  | fuel + 1, x :: xs => ((x :: xs).take n) :: chunksOfF n fuel ((x :: xs).drop n)

/-- Split a list into contiguous chunks of `n` elements; the last chunk may be shorter. -/
def chunksOf (n : Nat) (l : List α) : List (List α) := chunksOfF n l.length l

/-- Big-endian 8-byte encoding of the 64-bit message bit length. -/
def beBytes8 (n : Nat) : List Nat :=
  [n >>> 56 % 256, n >>> 48 % 256, n >>> 40 % 256, n >>> 32 % 256,
   n >>> 24 % 256, n >>> 16 % 256, n >>> 8 % 256, n % 256]

/-- SHA-1 padding: `0x80`, zeros to 56 mod 64, then the bit length. -/
def sha1Pad (msg : List Nat) : List Nat :=
  let len := msg.length
  let padZeros := (119 - len % 64) % 64
  msg ++ [0x80] ++ List.replicate padZeros 0 ++ beBytes8 (len * 8)

/-- Big-endian 4-byte encoding of a 32-bit word. -/
def wordBE (w : Nat) : List Nat :=
  [w >>> 24 % 256, w >>> 16 % 256, w >>> 8 % 256, w % 256]

/-- The five SHA-1 initialization words. -/
def sha1Init : Nat × Nat × Nat × Nat × Nat :=
  (0x67452301, 0xEFCDAB89, 0x98BADCFE, 0x10325476, 0xC3D2E1F0)

/-- Compress one 64-byte block into the running state. -/
def sha1Compress (st : Nat × Nat × Nat × Nat × Nat) (block : List Nat) :
    Nat × Nat × Nat × Nat × Nat :=
  let ws := sha1Schedule (bytesToWords block)
  match st, sha1Rounds 0 ws st with
  | (x0, x1, x2, x3, x4), (a, b, c, d, e) =>
      ((x0 + a) % w32, (x1 + b) % w32, (x2 + c) % w32, (x3 + d) % w32, (x4 + e) % w32)

/-- SHA-1 digest of a byte list, as the list of its 20 digest bytes. -/
def sha1Bytes (msg : List Nat) : List Nat :=
  match (chunksOf 64 (sha1Pad msg)).foldl sha1Compress sha1Init with
  | (h0, h1, h2, h3, h4) => wordBE h0 ++ wordBE h1 ++ wordBE h2 ++ wordBE h3 ++ wordBE h4

/-- The sixteen lowercase hexadecimal digits. -/
def hexChars : List Char := "0123456789abcdef".data

/-- Lowercase hexadecimal digit for `n < 16`. -/
def hexChar (n : Nat) : Char := hexChars.getD n '0'

/-- Two lowercase hex digits of a byte. -/
def byteHex (b : Nat) : List Char := [hexChar (b / 16), hexChar (b % 16)]

/-- Lowercase hex rendering of a byte list (Python's `hexdigest`). -/
def hexDigest (bs : List Nat) : String := String.mk ((bs.map byteHex).flatten)

/-- UTF-8 encoding of a Unicode code point. -/
def utf8EncodeChar (c : Nat) : List Nat :=
  if c < 0x80 then [c]
  else if c < 0x800 then [0xC0 ||| (c >>> 6), 0x80 ||| (c &&& 0x3F)]
  else if c < 0x10000 then
    [0xE0 ||| (c >>> 12), 0x80 ||| ((c >>> 6) &&& 0x3F), 0x80 ||| (c &&& 0x3F)]
  else
    [0xF0 ||| (c >>> 18), 0x80 ||| ((c >>> 12) &&& 0x3F), 0x80 ||| ((c >>> 6) &&& 0x3F),
     0x80 ||| (c &&& 0x3F)]

/-- UTF-8 encoding of a string (Python's `s.encode("utf-8")`), as a byte list. -/
def utf8Encode (s : String) : List Nat := (s.data.map (fun c => utf8EncodeChar c.toNat)).flatten

/-- Python `hashlib.sha1(s.encode("utf-8")).hexdigest()`. -/
def sha1Hex (s : String) : String := hexDigest (sha1Bytes (utf8Encode s))

/-- A character is a lowercase hexadecimal digit. -/
def isLowerHexDigit (c : Char) : Bool := hexChars.contains c

/-! ## Validation helpers (tts_service.py lines 68-102 / 197-217)

Python's `str.strip()` strips whitespace; the repository only ever feeds ASCII
whitespace into the blank-text check, and we model that ASCII fragment.
`not text or not text.strip()` holds exactly when every character of `text` is
whitespace (vacuously for the empty string). -/

/-- ASCII whitespace as stripped by Python's `str.strip()`. -/
def pyIsSpace (c : Char) : Bool := " \t\n\r\x0b\x0c".data.contains c

/-- Python `not text or not text.strip()`: `text` is empty or whitespace-only. -/
def blankText (text : String) : Bool := text.data.all pyIsSpace

/-- The `valid_speeds` list (tts_service.py lines 79 and 207). -/
def valid_speeds : List String := ["very_slow", "slow", "normal", "fast", "very_fast"]

/-- The `speed_mapping` dict of `handle_tts_request` (tts_service.py lines 82-88). -/
def speed_mapping : List (String × String) :=
  [("slow", "slow"), ("normal", "normal"), ("fast", "fast"),
   ("very_slow", "very_slow"), ("very_fast", "very_fast")]

/-- Speed normalization of `handle_tts_request` (tts_service.py lines 74-96):
empty defaults to `"normal"`, canonical labels pass through, other values go
through `speed_mapping` and otherwise fall back to `"normal"`. -/
def normalizeSpeedFile (speed : String) : String :=
  let speed := if speed == "" then "normal" else speed
  if valid_speeds.contains speed then speed
  else
    match speed_mapping.find? (fun p => p.1 == speed) with
    | some p => p.2
    | none => "normal"

/-- Speed normalization of `handle_tts_streaming_request` (tts_service.py
lines 202-211): empty or unrecognized values become `"normal"`. -/
def normalizeSpeedStream (speed : String) : String :=
  let speed := if speed == "" then "normal" else speed
  if valid_speeds.contains speed then speed else "normal"

/-- The `max_text_length` bound (tts_service.py lines 99 and 214). -/
def max_text_length : Nat := 10000

/-- The `chunk_size` of the streaming generator (tts_service.py line 242). -/
def chunk_size : Nat := 8192

/-- The `LRUCache(maxsize=128)` capacity of `provide_audio_cache` (caching.py line 5). -/
def provide_audio_cache_maxsize : Nat := 128

/-! ## Cache values and the LRU cache (cachetools semantics)

`TTSService.cache` is a cachetools `LRUCache`. File-mode requests store the
bare marker `True` (tts_service.py lines 120 and 165); stream-mode requests
store the `BytesIO` object itself (line 231), i.e. a reference into a heap of
mutable buffers. We model the cache as an association list ordered from least
to most recently used, and buffers in a separate heap keyed by `Nat` ids so
that sharing a `BytesIO` between the cache and live generators is explicit.

The cachetools behavior mirrored here (all entries have unit size):
`__contains__` does not touch recency order; `__getitem__` returns the value
and promotes the key to most recently used; `__setitem__` evicts from the
least recently used end while the cache is full, then inserts/replaces the key
as most recently used. -/

/-- A cached artifact: the `True` marker of file mode, or a reference to a
`BytesIO` buffer in stream mode. -/
inductive CacheVal where
  | marker : CacheVal
  | buf : Nat → CacheVal
deriving DecidableEq, Repr

/-- The LRU cache content, least recently used first. -/
abbrev LRU := List (String × CacheVal)

/-- Membership `key in cache` — cachetools `Cache.__contains__`, no promotion. -/
def lruContains (c : LRU) (k : String) : Bool := c.any (fun p => p.1 == k)

/-- Read `cache[key]` — cachetools `LRUCache.__getitem__`: the value, and the cache
with the key promoted to most recently used. -/
def lruGet (c : LRU) (k : String) : Option CacheVal × LRU :=
  match c.find? (fun p => p.1 == k) with
  | none => (none, c)
  | some e => (some e.2, c.filter (fun p => !(p.1 == k)) ++ [e])

/-- Write `cache[key] = value` — cachetools `LRUCache.__setitem__` for unit-size
entries: replace-and-promote when present, otherwise evict from the least
recently used end until there is room, then append as most recently used. -/
def lruSet (cap : Nat) (c : LRU) (k : String) (v : CacheVal) : LRU :=
  if lruContains c k then c.filter (fun p => !(p.1 == k)) ++ [(k, v)]
  else c.drop (c.length + 1 - cap) ++ [(k, v)]

/-- A `BytesIO`: immutable byte contents plus a mutable read position. -/
structure Buffer where
  contents : List Nat
  pos : Nat
deriving DecidableEq, Repr

/-- Association-list lookup (first match wins). -/
def alistLookup [BEq κ] (m : List (κ × ν)) (k : κ) : Option ν :=
  (m.find? (fun p => p.1 == k)).map (fun p => p.2)

/-- Association-list insert-or-replace. -/
def alistSet [BEq κ] (m : List (κ × ν)) (k : κ) (v : ν) : List (κ × ν) :=
  (k, v) :: m.filter (fun p => !(p.1 == k))

/-- The mutable world seen by `TTSService`: the LRU cache with its capacity,
the audio output directory's files (path ↦ bytes), the heap of live `BytesIO`
buffers, a fresh-id counter for newly allocated buffers, and two counters for
the engine invocations (`model.text_to_speech` / `model.text_to_speech_streaming`). -/
structure ServiceState where
  cap : Nat
  cache : LRU
  files : List (String × List Nat)
  bufs : List (Nat × Buffer)
  nextId : Nat
  fileCalls : Nat
  streamCalls : Nat
deriving DecidableEq, Repr

/-- Errors raised by the handlers, by raise site. `emptyText` and `textTooLong`
are the validation `ValueError`s (the spec's `InvalidInput`); `synthFailed`
models an exception out of the engine re-wrapped at the gateway, and
`fileNotCreated` the `ValueError` of tts_service.py line 162 (both the spec's
`SynthesisError`). `notABuffer` models the `AttributeError` Python would raise
when a `stream:` key holds a non-`BytesIO` value (unreachable in real runs). -/
inductive TTSError where
  | emptyText
  | textTooLong
  | synthFailed
  | fileNotCreated
  | notABuffer
deriving DecidableEq, Repr

/-- The dict returned by `handle_tts_request` (tts_service.py line 168). -/
structure TTSResult where
  hash : String
  text : String
  speed : String
  file_name : String
deriving DecidableEq, Repr

/-- Abstract model of the injected `PiperTTS` engine. `synthFile text speed`
describes `model.text_to_speech(text, speed, path)`: `none` means the call
raises; `some none` means it returns but the output file does not exist at the
returned path; `some (some bytes)` means it wrote `bytes` at the requested
path and returned that path (the behavior of tts.py on success).
`synthStream text speed` describes `model.text_to_speech_streaming`: `none`
means the call raises; `some bytes` means it returns a fresh `BytesIO` holding
`bytes`. -/
structure EngineModel where
  synthFile : String → String → Option (Option (List Nat))
  synthStream : String → String → Option (List Nat)

/-! ## The file-mode handler (`TTSService.handle_tts_request`)

The embedding keeps the source's control flow: blank-text check, speed
normalization, length check, fingerprint, memory-cache check (`in`, no
promotion), filesystem check, then synthesis with an existence check on the
result and a cache insert. Directory creation and the write-permission probe
(lines 126-148) are modeled as succeeding, and `Path(dir) / name` as string
concatenation. -/

/-- The body of `handle_tts_request` after speed normalization
(tts_service.py lines 98-168); `speed` is already canonical here. -/
def fileRequestBody (model : EngineModel) (audio_output_dir : String)
    (st : ServiceState) (text speed : String) : Except TTSError TTSResult × ServiceState :=
  if text.length > max_text_length then (.error .textTooLong, st)
  else
    let text_hash := sha1Hex (text ++ speed)
    let file_name := text_hash ++ ".wav"
    let cache_key := "file:" ++ text_hash
    if lruContains st.cache cache_key then
      (.ok ⟨text_hash, text, speed, file_name⟩, st)
    else
      let file_path := audio_output_dir ++ file_name
      if (alistLookup st.files file_path).isSome then
        (.ok ⟨text_hash, text, speed, file_name⟩,
         { st with cache := lruSet st.cap st.cache cache_key .marker })
      else
        match model.synthFile text speed with
        | none => (.error .synthFailed, { st with fileCalls := st.fileCalls + 1 })
        | some none => (.error .fileNotCreated, { st with fileCalls := st.fileCalls + 1 })
        | some (some bytes) =>
            (.ok ⟨text_hash, text, speed, file_name⟩,
             { st with files := alistSet st.files file_path bytes,
                       cache := lruSet st.cap st.cache cache_key .marker,
                       fileCalls := st.fileCalls + 1 })

/-- The handler `TTSService.handle_tts_request` (tts_service.py lines 50-178). -/
def handle_tts_request (model : EngineModel) (audio_output_dir : String)
    (st : ServiceState) (text speed : String) : Except TTSError TTSResult × ServiceState :=
  if blankText text then (.error .emptyText, st)
  else fileRequestBody model audio_output_dir st text (normalizeSpeedFile speed)

/-! ## The stream-mode handler (`TTSService.handle_tts_streaming_request`)

On a hit the handler fetches the cached `BytesIO` (a promoting `__getitem__`)
and `seek(0)`s it; on a miss it synthesizes a fresh buffer, seeks it to 0 and
caches the buffer object itself. It returns the generator `_gen()` closed over
that shared buffer, modeled as the buffer's heap id. -/

/-- The body of `handle_tts_streaming_request` after speed normalization
(tts_service.py lines 213-255); `speed` is already canonical here. -/
def streamRequestBody (model : EngineModel) (st : ServiceState)
    (text speed : String) : Except TTSError Nat × ServiceState :=
  if text.length > max_text_length then (.error .textTooLong, st)
  else
    let cache_key := "stream:" ++ sha1Hex (text ++ speed)
    if lruContains st.cache cache_key then
      match lruGet st.cache cache_key with
      | (some (.buf bid), cache') =>
          match alistLookup st.bufs bid with
          | some b =>
              (.ok bid, { st with cache := cache',
                                  bufs := alistSet st.bufs bid { b with pos := 0 } })
          | none => (.ok bid, { st with cache := cache' })
      | (_, cache') => (.error .notABuffer, { st with cache := cache' })
    else
      match model.synthStream text speed with
      | none => (.error .synthFailed, { st with streamCalls := st.streamCalls + 1 })
      | some bytes =>
          let bid := st.nextId
          (.ok bid,
           { st with bufs := alistSet st.bufs bid ⟨bytes, 0⟩,
                     cache := lruSet st.cap st.cache cache_key (.buf bid),
                     nextId := st.nextId + 1,
                     streamCalls := st.streamCalls + 1 })

/-- The handler `TTSService.handle_tts_streaming_request` (tts_service.py lines 180-255). -/
def handle_tts_streaming_request (model : EngineModel) (st : ServiceState)
    (text speed : String) : Except TTSError Nat × ServiceState :=
  if blankText text then (.error .emptyText, st)
  else streamRequestBody model st text (normalizeSpeedStream speed)

/-! ## The streaming generator `_gen` (tts_service.py lines 244-253)

One loop iteration is `chunk = audio_buffer.read(chunk_size)`, stopping when
the chunk is empty; the buffer is shared state, so a read advances the
position seen by every other generator over the same buffer. -/

/-- One `audio_buffer.read(chunk_size)` step of `_gen` for the generator over
buffer `bid`: the yielded chunk and the world afterwards. -/
def genRead (st : ServiceState) (bid : Nat) : List Nat × ServiceState :=
  match alistLookup st.bufs bid with
  | none => ([], st)
  | some b =>
      let chunk := (b.contents.drop b.pos).take chunk_size
      (chunk, { st with bufs := alistSet st.bufs bid { b with pos := b.pos + chunk.length } })

/-- The `while True` loop of `_gen`, fuel-driven: collect chunks until a read
returns nothing. -/
def genLoop : Nat → ServiceState → Nat → List (List Nat) × ServiceState
  | 0, st, _ => ([], st)
  | fuel + 1, st, bid =>
      let (chunk, st') := genRead st bid
      if chunk.isEmpty then ([], st')
      else
        let (rest, st'') := genLoop fuel st' bid
        (chunk :: rest, st'')

/-- The length of the buffer behind generator `bid`. -/
def bufSize (st : ServiceState) (bid : Nat) : Nat :=
  match alistLookup st.bufs bid with
  | none => 0
  | some b => b.contents.length

/-- Consume the generator over buffer `bid` to exhaustion with no interleaved
reader: every yielded chunk in order, and the world afterwards. The fuel
`bufSize st bid + 1` is enough because every non-final read consumes at least
one byte. -/
def drainGen (st : ServiceState) (bid : Nat) : List (List Nat) × ServiceState :=
  genLoop (bufSize st bid + 1) st bid

/-! ## Two-request runners (the spec's idempotency scenarios) -/

/-- Two sequential identical file-mode requests. -/
def runFileTwice (model : EngineModel) (dir : String) (st : ServiceState)
    (text speed : String) :
    Except TTSError TTSResult × Except TTSError TTSResult × ServiceState :=
  let (r1, st1) := handle_tts_request model dir st text speed
  let (r2, st2) := handle_tts_request model dir st1 text speed
  (r1, r2, st2)

/-- Two sequential identical stream-mode requests, each generator drained to
exhaustion before the next step; `none` when either request raises. -/
def runStreamTwice (model : EngineModel) (st : ServiceState) (text speed : String) :
    Option ((List (List Nat)) × (List (List Nat)) × ServiceState) :=
  match handle_tts_streaming_request model st text speed with
  | (.error _, _) => none
  | (.ok bid1, st1) =>
      let (cs1, st2) := drainGen st1 bid1
      match handle_tts_streaming_request model st2 text speed with
      | (.error _, _) => none
      | (.ok bid2, st3) =>
          let (cs2, st4) := drainGen st3 bid2
          some (cs1, cs2, st4)

/-! ## The LRU cache as used through `provide_audio_cache` (C8) -/

/-- A cache access: a promoting read (`cache[key]`) or a write (`cache[key] = v`). -/
inductive CacheOp where
  | get : String → CacheOp
  | set : String → CacheVal → CacheOp
deriving DecidableEq, Repr

/-- Apply one cache access. -/
def applyOp (cap : Nat) (c : LRU) : CacheOp → LRU
  | .get k => (lruGet c k).2
  | .set k v => lruSet cap c k v

/-- Apply a sequence of cache accesses. -/
def applyOps (cap : Nat) (ops : List CacheOp) (c : LRU) : LRU := ops.foldl (applyOp cap) c

/-! ## `SPEED_VALUES` and `length_scale` selection (tts.py) -/

/-- The `SPEED_VALUES` dict (tts.py lines 20-26); the float constants are exactly
representable and modeled as rationals. -/
def SPEED_VALUES : List (String × ℚ) :=
  [("very_slow", 1.5), ("slow", 1.2), ("normal", 1.0), ("fast", 0.6), ("very_fast", 0.4)]

/-- The `length_scale` that `PiperTTS.text_to_speech` hands to
`SynthesisConfig` (tts.py lines 93-123): blank text and speeds outside
`SPEED_VALUES` raise `ValueError`, otherwise `SPEED_VALUES[speed]` is used. -/
def text_to_speech_length_scale (text speed : String) : Except TTSError ℚ :=
  if blankText text then .error .emptyText
  else
    match alistLookup SPEED_VALUES speed with
    | none => .error .synthFailed
    | some v => .ok v

/-- The `length_scale` that `PiperTTS.text_to_speech_streaming` hands to
`SynthesisConfig` (tts.py lines 154-172): the same validation and lookup. -/
def text_to_speech_streaming_length_scale (text speed : String) : Except TTSError ℚ :=
  if blankText text then .error .emptyText
  else
    match alistLookup SPEED_VALUES speed with
    | none => .error .synthFailed
    | some v => .ok v

/-! ## Concrete fixtures for counterexamples and witnesses -/

/-- An engine that always succeeds and writes the one-byte artifact `[0]`. -/
def demoEngine : EngineModel := ⟨fun _ _ => some (some [0]), fun _ _ => some [0]⟩

/-- An engine whose file synthesis returns successfully but leaves a zero-byte
(existing, empty) file at the requested path. -/
def zeroByteEngine : EngineModel := ⟨fun _ _ => some (some []), fun _ _ => some []⟩

/-- An engine whose streaming synthesis yields the one-byte buffer `[1]`. -/
def oneByteStreamEngine : EngineModel := ⟨fun _ _ => some (some [1]), fun _ _ => some [1]⟩

/-- A fresh service at startup: default capacity 128, nothing cached, no files,
no live buffers, no engine calls. -/
def initState : ServiceState := ⟨provide_audio_cache_maxsize, [], [], [], 0, 0, 0⟩

/-- The service state after one successful `("hi", "normal")` file request
from a fresh service against `demoEngine`. -/
def c2State : ServiceState :=
  { initState with
    files := alistSet initState.files ("audio/" ++ (sha1Hex ("hi" ++ normalizeSpeedFile "normal") ++ ".wav")) [0],
    cache := lruSet initState.cap initState.cache ("file:" ++ sha1Hex ("hi" ++ normalizeSpeedFile "normal")) .marker,
    fileCalls := initState.fileCalls + 1 }

/-- The interleaved two-reader trace refuting cursor independence: request A
for `("hi", "normal")`, one generator read by A, then request B for the same
pair (which `seek(0)`s the shared cached `BytesIO`), then A reads to
exhaustion, then B reads. Returns A's concatenated bytes, B's concatenated
bytes, and the cached buffer's contents. -/
def interleavedStreamTrace : List Nat × List Nat × List Nat :=
  match handle_tts_streaming_request oneByteStreamEngine initState "hi" "normal" with
  | (.ok bidA, st1) =>
      let (a1, st2) := genRead st1 bidA
      match handle_tts_streaming_request oneByteStreamEngine st2 "hi" "normal" with
      | (.ok bidB, st3) =>
          let (a2, st4) := genRead st3 bidA
          let (a3, st5) := genRead st4 bidA
          let (b1, st6) := genRead st5 bidB
          let cachedContents :=
            match alistLookup st6.bufs bidA with
            | some b => b.contents
            | none => []
          (a1 ++ a2 ++ a3, b1, cachedContents)
      | (.error _, _) => ([], [], [])
  | (.error _, _) => ([], [], [])


/-! ## Chunking lemmas -/

theorem chunksOfF_congr {α : Type _} {n : Nat} (hn : 1 ≤ n) :
    ∀ (fuel fuel' : Nat) (l : List α), l.length ≤ fuel → l.length ≤ fuel' →
      chunksOfF n fuel l = chunksOfF n fuel' l := by
  intro fuel
  induction fuel with
  | zero =>
      intro fuel' l hl _
      have : l = [] := List.eq_nil_of_length_eq_zero (Nat.le_zero.mp hl)
      subst this
      cases fuel' <;> rfl
  | succ fuel ih =>
      intro fuel' l hl hl'
      cases l with
      | nil => cases fuel' <;> rfl
      | cons x xs =>
          cases fuel' with
          | zero => simp at hl'
          | succ fuel' =>
              simp only [chunksOfF]
              congr 1
              have hdl : ((x :: xs).drop n).length = xs.length + 1 - n := by
                simp [List.length_drop]
              apply ih
              · rw [hdl]; simp at hl; omega
              · rw [hdl]; simp at hl'; omega

theorem chunksOf_nil {α : Type _} (n : Nat) : chunksOf n ([] : List α) = [] := rfl

theorem chunksOf_eq_cons {α : Type _} {n : Nat} (hn : 1 ≤ n) {l : List α} (hl : l ≠ []) :
    chunksOf n l = l.take n :: chunksOf n (l.drop n) := by
  cases l with
  | nil => exact absurd rfl hl
  | cons x xs =>
      show chunksOfF n (xs.length + 1) (x :: xs) = _
      simp only [chunksOfF]
      congr 1
      exact chunksOfF_congr hn xs.length (List.length (List.drop n (x :: xs)))
        ((x :: xs).drop n) (by simp; omega) (Nat.le_refl _)

theorem chunksOf_flatten {α : Type _} {n : Nat} (hn : 1 ≤ n) (l : List α) :
    (chunksOf n l).flatten = l := by
  have aux : ∀ (m : Nat) (l : List α), l.length ≤ m → (chunksOf n l).flatten = l := by
    intro m
    induction m with
    | zero =>
        intro l hl
        have : l = [] := List.eq_nil_of_length_eq_zero (Nat.le_zero.mp hl)
        subst this; rfl
    | succ m ih =>
        intro l hl
        by_cases hnil : l = []
        · subst hnil; rfl
        · rw [chunksOf_eq_cons hn hnil]
          simp only [List.flatten_cons]
          rw [ih (l.drop n) (by simp; omega)]
          exact List.take_append_drop n l
  exact aux l.length l (Nat.le_refl _)

theorem chunksOf_ne_nil {α : Type _} {n : Nat} {l : List α} (hl : l ≠ []) :
    chunksOf n l ≠ [] := by
  cases l with
  | nil => exact absurd rfl hl
  | cons x xs =>
      show chunksOfF n (xs.length + 1) (x :: xs) ≠ []
      simp [chunksOfF]

theorem chunksOf_mem {α : Type _} {n : Nat} (hn : 1 ≤ n) {l : List α} {c : List α}
    (hc : c ∈ chunksOf n l) : c ≠ [] ∧ c.length ≤ n := by
  have aux : ∀ (m : Nat) (l : List α), l.length ≤ m → ∀ c ∈ chunksOf n l,
      c ≠ [] ∧ c.length ≤ n := by
    intro m
    induction m with
    | zero =>
        intro l hl c hc
        have : l = [] := List.eq_nil_of_length_eq_zero (Nat.le_zero.mp hl)
        subst this; simp [chunksOf_nil] at hc
    | succ m ih =>
        intro l hl c hc
        by_cases hnil : l = []
        · subst hnil; simp [chunksOf_nil] at hc
        · rw [chunksOf_eq_cons hn hnil] at hc
          rcases List.mem_cons.mp hc with h | h
          · subst h
            refine ⟨?_, by simp⟩
            simp only [ne_eq, List.take_eq_nil_iff]
            push_neg
            exact ⟨by omega, hnil⟩
          · exact ih (l.drop n) (by simp; omega) c h
  exact aux l.length l (Nat.le_refl _) c hc

theorem chunksOf_dropLast_mem {α : Type _} {n : Nat} (hn : 1 ≤ n) {l : List α} {c : List α}
    (hc : c ∈ (chunksOf n l).dropLast) : c.length = n := by
  have aux : ∀ (m : Nat) (l : List α), l.length ≤ m → ∀ c ∈ (chunksOf n l).dropLast,
      c.length = n := by
    intro m
    induction m with
    | zero =>
        intro l hl c hc
        have : l = [] := List.eq_nil_of_length_eq_zero (Nat.le_zero.mp hl)
        subst this; simp [chunksOf_nil] at hc
    | succ m ih =>
        intro l hl c hc
        by_cases hnil : l = []
        · subst hnil; simp [chunksOf_nil] at hc
        · rw [chunksOf_eq_cons hn hnil] at hc
          by_cases hrest : l.drop n = []
          · rw [hrest, chunksOf_nil] at hc
            simp at hc
          · have hne : chunksOf n (l.drop n) ≠ [] := chunksOf_ne_nil hrest
            rw [List.dropLast_cons_of_ne_nil hne] at hc
            rcases List.mem_cons.mp hc with h | h
            · subst h
              have : n < l.length := by
                by_contra hcon
                exact hrest (List.drop_eq_nil_of_le (by omega))
              simp [List.length_take]
              omega
            · exact ih (l.drop n) (by simp; omega) c h
  exact aux l.length l (Nat.le_refl _) c hc

/-! ## Association-list and LRU lemmas -/

theorem alistLookup_set_self {κ ν : Type _} [BEq κ] [LawfulBEq κ]
    (m : List (κ × ν)) (k : κ) (v : ν) : alistLookup (alistSet m k v) k = some v := by
  simp [alistLookup, alistSet, List.find?]

theorem alistSet_set {κ ν : Type _} [BEq κ] [LawfulBEq κ]
    (m : List (κ × ν)) (k : κ) (v v' : ν) :
    alistSet (alistSet m k v) k v' = alistSet m k v' := by
  simp [alistSet, List.filter_filter]

theorem find?_filter_neg_length {α : Type _} {p : α → Bool} {l : List α} {e : α}
    (h : l.find? p = some e) : (l.filter fun x => !(p x)).length < l.length := by
  induction l with
  | nil => simp at h
  | cons a l ih =>
      by_cases hp : p a
      · simp [List.filter_cons, hp]
        exact Nat.lt_succ_of_le (List.length_filter_le _ _)
      · rw [List.find?_cons_of_neg _ hp] at h
        simp [List.filter_cons, hp]
        exact ih h

theorem lruContains_iff_find? (c : LRU) (k : String) :
    lruContains c k = true ↔ ∃ e, c.find? (fun p => p.1 == k) = some e := by
  constructor
  · intro h
    rcases List.any_eq_true.mp h with ⟨e, he, hp⟩
    have : (c.find? fun p => p.1 == k).isSome := List.find?_isSome.mpr ⟨e, he, hp⟩
    exact Option.isSome_iff_exists.mp this
  · rintro ⟨e, he⟩
    have hmem := List.mem_of_find?_eq_some he
    have hp := List.find?_some he
    exact List.any_eq_true.mpr ⟨e, hmem, hp⟩

theorem lruContains_false_find? {c : LRU} {k : String} (h : lruContains c k = false) :
    c.find? (fun p => p.1 == k) = none := by
  cases hf : c.find? (fun p => p.1 == k) with
  | none => rfl
  | some e =>
      have : lruContains c k = true := (lruContains_iff_find? c k).mpr ⟨e, hf⟩
      rw [this] at h; cases h

theorem find?_lruSet_self (cap : Nat) (c : LRU) (k : String) (v : CacheVal) :
    (lruSet cap c k v).find? (fun p => p.1 == k) = some (k, v) := by
  unfold lruSet
  split
  · rw [List.find?_append]
    have hnone : (c.filter fun p => !(p.1 == k)).find? (fun p => p.1 == k) = none := by
      rw [List.find?_eq_none]
      intro x hx
      have := (List.mem_filter.mp hx).2
      simp at this
      simp [this]
    rw [hnone]
    simp [List.find?]
  · rw [List.find?_append]
    rename_i hcon
    have hnone : (c.drop (c.length + 1 - cap)).find? (fun p => p.1 == k) = none := by
      rw [List.find?_eq_none]
      intro x hx
      have hx' : x ∈ c := List.mem_of_mem_drop hx
      have hall := lruContains_false_find? (Bool.of_not_eq_true hcon)
      rw [List.find?_eq_none] at hall
      exact hall x hx'
    rw [hnone]
    simp [List.find?]

theorem lruContains_lruSet_self (cap : Nat) (c : LRU) (k : String) (v : CacheVal) :
    lruContains (lruSet cap c k v) k = true :=
  (lruContains_iff_find? _ _).mpr ⟨(k, v), find?_lruSet_self cap c k v⟩

theorem lruGet_lruSet_self (cap : Nat) (c : LRU) (k : String) (v : CacheVal) :
    lruGet (lruSet cap c k v) k =
      (some v, (lruSet cap c k v).filter (fun p => !(p.1 == k)) ++ [(k, v)]) := by
  unfold lruGet
  rw [find?_lruSet_self]

theorem lruGet_length_le (c : LRU) (k : String) : (lruGet c k).2.length ≤ c.length := by
  unfold lruGet
  cases hf : c.find? (fun p => p.1 == k) with
  | none => simp
  | some e =>
      simp only [List.length_append, List.length_cons, List.length_nil]
      have := find?_filter_neg_length hf
      omega

theorem lruSet_length_le {cap : Nat} (hcap : 1 ≤ cap) {c : LRU} (hc : c.length ≤ cap)
    (k : String) (v : CacheVal) : (lruSet cap c k v).length ≤ cap := by
  unfold lruSet
  split
  · rename_i hcon
    rcases (lruContains_iff_find? c k).mp hcon with ⟨e, he⟩
    have := find?_filter_neg_length he
    simp only [List.length_append, List.length_cons, List.length_nil]
    omega
  · simp only [List.length_append, List.length_cons, List.length_nil, List.length_drop]
    omega

/-! ## Speed-normalization lemmas -/

theorem speed_mapping_keys_valid {p : String × String}
    (hp : p ∈ speed_mapping) : valid_speeds.contains p.1 = true := by
  simp only [speed_mapping, List.mem_cons, List.not_mem_nil, or_false] at hp
  rcases hp with h | h | h | h | h <;> (subst h; decide)

theorem speed_mapping_find?_none {s : String} (h : valid_speeds.contains s = false) :
    speed_mapping.find? (fun p => p.1 == s) = none := by
  rw [List.find?_eq_none]
  intro p hp hps
  have hs : p.1 = s := by simpa using hps
  have hv := speed_mapping_keys_valid hp
  rw [hs, h] at hv
  cases hv

theorem normalizeSpeedFile_invalid {s : String} (h : valid_speeds.contains s = false) :
    normalizeSpeedFile s = "normal" := by
  by_cases hs : s = ""
  · subst hs; decide
  · have hbeq : (s == "") = false := beq_eq_false_iff_ne.mpr hs
    have hmem : s ∉ valid_speeds := by simpa using h
    simp [normalizeSpeedFile, hbeq, hmem, speed_mapping_find?_none h]

theorem normalizeSpeedStream_invalid {s : String} (h : valid_speeds.contains s = false) :
    normalizeSpeedStream s = "normal" := by
  by_cases hs : s = ""
  · subst hs; decide
  · have hbeq : (s == "") = false := beq_eq_false_iff_ne.mpr hs
    have hmem : s ∉ valid_speeds := by simpa using h
    simp [normalizeSpeedStream, hbeq, hmem]

theorem normalizeSpeedFile_valid {s : String} (h : valid_speeds.contains s = true) :
    normalizeSpeedFile s = s := by
  have hs : s ≠ "" := by
    intro hcon; subst hcon; simp [valid_speeds] at h
  have hbeq : (s == "") = false := beq_eq_false_iff_ne.mpr hs
  have hmem : s ∈ valid_speeds := by simpa using h
  simp [normalizeSpeedFile, hbeq, hmem]

theorem normalizeSpeedStream_valid {s : String} (h : valid_speeds.contains s = true) :
    normalizeSpeedStream s = s := by
  have hs : s ≠ "" := by
    intro hcon; subst hcon; simp [valid_speeds] at h
  have hbeq : (s == "") = false := beq_eq_false_iff_ne.mpr hs
  have hmem : s ∈ valid_speeds := by simpa using h
  simp [normalizeSpeedStream, hbeq, hmem]

theorem normalizeSpeedFile_eq_stream (s : String) :
    normalizeSpeedFile s = normalizeSpeedStream s := by
  by_cases h : valid_speeds.contains s = true
  · rw [normalizeSpeedFile_valid h, normalizeSpeedStream_valid h]
  · have h' : valid_speeds.contains s = false := by
      cases hc : valid_speeds.contains s
      · rfl
      · exact absurd hc h
    rw [normalizeSpeedFile_invalid h', normalizeSpeedStream_invalid h']

theorem normalizeSpeedFile_mem (s : String) :
    valid_speeds.contains (normalizeSpeedFile s) = true := by
  by_cases h : valid_speeds.contains s = true
  · rw [normalizeSpeedFile_valid h]; exact h
  · have h' : valid_speeds.contains s = false := by
      cases hc : valid_speeds.contains s
      · rfl
      · exact absurd hc h
    rw [normalizeSpeedFile_invalid h']
    decide

theorem normalizeSpeedFile_idem (s : String) :
    normalizeSpeedFile (normalizeSpeedFile s) = normalizeSpeedFile s :=
  normalizeSpeedFile_valid (normalizeSpeedFile_mem s)

theorem normalizeSpeedStream_idem (s : String) :
    normalizeSpeedStream (normalizeSpeedStream s) = normalizeSpeedStream s := by
  rw [← normalizeSpeedFile_eq_stream s, ← normalizeSpeedFile_eq_stream]
  exact normalizeSpeedFile_idem s

/-! ## Generator drain lemma -/

theorem genLoop_spec (fuel : Nat) :
    ∀ (st : ServiceState) (bid : Nat) (b : Buffer),
      alistLookup st.bufs bid = some b →
      (b.contents.drop b.pos).length + 1 ≤ fuel →
      genLoop fuel st bid =
        (chunksOf chunk_size (b.contents.drop b.pos),
         { st with
           bufs := alistSet st.bufs bid ⟨b.contents, b.pos + (b.contents.drop b.pos).length⟩ }) := by
  induction fuel with
  | zero => intro st bid b hb hf; omega
  | succ fuel ih =>
      intro st bid b hb hf
      simp only [genLoop, genRead, hb]
      by_cases hempty : (b.contents.drop b.pos).take chunk_size = []
      · have hdrop : b.contents.drop b.pos = [] := by
          rcases List.take_eq_nil_iff.mp hempty with h | h
          · exact absurd h (by decide)
          · exact h
        simp [hempty, hdrop, chunksOf_nil]
      · have hcs : 1 ≤ chunk_size := by decide
        have hdrop : b.contents.drop b.pos ≠ [] := by
          intro hcon
          exact hempty (by rw [hcon]; simp)
        have hpos : b.pos < b.contents.length := by
          by_contra hcon
          exact hdrop (List.drop_eq_nil_of_le (by omega))
        have hk : ((b.contents.drop b.pos).take chunk_size).length =
            min chunk_size (b.contents.length - b.pos) := by
          simp [List.length_take, List.length_drop]
        have hkpos : 1 ≤ ((b.contents.drop b.pos).take chunk_size).length := by
          rcases List.length_pos.mpr hempty with h
          omega
        rw [if_neg (by simpa [List.isEmpty_iff] using hempty)]
        have hb' : alistLookup
            (alistSet st.bufs bid
              ⟨b.contents, b.pos + ((b.contents.drop b.pos).take chunk_size).length⟩) bid =
            some ⟨b.contents, b.pos + ((b.contents.drop b.pos).take chunk_size).length⟩ :=
          alistLookup_set_self _ _ _
        have hf' : ((⟨b.contents, b.pos + ((b.contents.drop b.pos).take chunk_size).length⟩ :
            Buffer).contents.drop
              (⟨b.contents, b.pos + ((b.contents.drop b.pos).take chunk_size).length⟩ :
                Buffer).pos).length + 1 ≤ fuel := by
          simp only [List.length_drop] at *
          omega
        rw [ih _ bid _ hb' hf']
        simp only [alistSet_set]
        have hdrops : b.contents.drop
            (b.pos + ((b.contents.drop b.pos).take chunk_size).length) =
            (b.contents.drop b.pos).drop chunk_size := by
          rw [List.drop_drop]
          by_cases hc : chunk_size ≤ b.contents.length - b.pos
          · have : ((b.contents.drop b.pos).take chunk_size).length = chunk_size := by omega
            rw [this]
          · have h1 : b.contents.length ≤ b.pos +
                ((b.contents.drop b.pos).take chunk_size).length := by omega
            have h2 : b.contents.length ≤ b.pos + chunk_size := by omega
            rw [List.drop_eq_nil_of_le h1, List.drop_eq_nil_of_le h2]
        simp only [Prod.mk.injEq]
        constructor
        · rw [chunksOf_eq_cons hcs hdrop, hdrops]
        · have hposs : (b.pos + ((b.contents.drop b.pos).take chunk_size).length) +
              (b.contents.drop
                (b.pos + ((b.contents.drop b.pos).take chunk_size).length)).length =
              b.pos + (b.contents.drop b.pos).length := by
            simp only [List.length_drop]
            omega
          rw [hposs]

/-- Draining with no interleaved reader: all chunks of the remaining
contents, and the buffer left at end position. -/
theorem drainGen_spec {st : ServiceState} {bid : Nat} {b : Buffer}
    (hb : alistLookup st.bufs bid = some b) :
    drainGen st bid =
      (chunksOf chunk_size (b.contents.drop b.pos),
       { st with
         bufs := alistSet st.bufs bid ⟨b.contents, b.pos + (b.contents.drop b.pos).length⟩ }) := by
  unfold drainGen bufSize
  rw [hb]
  exact genLoop_spec _ st bid b hb (by simp [List.length_drop])

/-! ## Digest shape lemmas -/

theorem string_mk_length (cs : List Char) : (String.mk cs).length = cs.length := rfl

theorem sha1Bytes_length (msg : List Nat) : (sha1Bytes msg).length = 20 := by
  unfold sha1Bytes
  generalize (chunksOf 64 (sha1Pad msg)).foldl sha1Compress sha1Init = t
  obtain ⟨h0, h1, h2, h3, h4⟩ := t
  simp [wordBE]

theorem sha1Bytes_lt (msg : List Nat) : ∀ b ∈ sha1Bytes msg, b < 256 := by
  unfold sha1Bytes
  generalize (chunksOf 64 (sha1Pad msg)).foldl sha1Compress sha1Init = t
  obtain ⟨h0, h1, h2, h3, h4⟩ := t
  intro b hb
  simp [wordBE] at hb
  rcases hb with hb|hb|hb|hb|hb|hb|hb|hb|hb|hb|hb|hb|hb|hb|hb|hb|hb|hb|hb|hb <;>
    (subst hb; omega)

theorem hexChar_lower (n : Nat) (h : n < 16) : isLowerHexDigit (hexChar n) = true := by
  interval_cases n <;> decide

theorem hexDigest_length (bs : List Nat) : (hexDigest bs).length = 2 * bs.length := by
  have aux : ∀ bs : List Nat, ((bs.map byteHex).flatten).length = 2 * bs.length := by
    intro l
    induction l with
    | nil => rfl
    | cons b l ih => simp [byteHex, ih]; omega
  unfold hexDigest
  rw [string_mk_length]
  exact aux bs

theorem hexDigest_chars {bs : List Nat} (h : ∀ b ∈ bs, b < 256) :
    ∀ c ∈ (hexDigest bs).data, isLowerHexDigit c = true := by
  unfold hexDigest
  show ∀ c ∈ (bs.map byteHex).flatten, isLowerHexDigit c = true
  induction bs with
  | nil => intro c hc; simp at hc
  | cons b l ih =>
      intro c hc
      simp only [List.map_cons, List.flatten_cons, List.mem_append] at hc
      rcases hc with hc | hc
      · have hblt : b < 256 := h b (by simp)
        simp only [byteHex, List.mem_cons, List.not_mem_nil, or_false] at hc
        rcases hc with hc | hc <;> subst hc
        · exact hexChar_lower _ (by omega)
        · exact hexChar_lower _ (by omega)
      · exact ih (fun x hx => h x (by simp [hx])) c hc

theorem sha1Hex_length (s : String) : (sha1Hex s).length = 40 := by
  unfold sha1Hex
  rw [hexDigest_length, sha1Bytes_length]

theorem sha1Hex_lower (s : String) : ∀ c ∈ (sha1Hex s).data, isLowerHexDigit c = true := by
  unfold sha1Hex
  exact hexDigest_chars (sha1Bytes_lt _)

/-! ## Handler path-reduction lemmas -/

theorem handle_file_eq_body {model : EngineModel} {dir : String} {st : ServiceState}
    {text speed : String} (hb : blankText text = false) :
    handle_tts_request model dir st text speed =
      fileRequestBody model dir st text (normalizeSpeedFile speed) := by
  unfold handle_tts_request
  simp [hb]

theorem handle_stream_eq_body {model : EngineModel} {st : ServiceState}
    {text speed : String} (hb : blankText text = false) :
    handle_tts_streaming_request model st text speed =
      streamRequestBody model st text (normalizeSpeedStream speed) := by
  unfold handle_tts_streaming_request
  simp [hb]

theorem fileRequestBody_toolong {model : EngineModel} {dir : String} {st : ServiceState}
    {text speed : String} (hlen : text.length > max_text_length) :
    fileRequestBody model dir st text speed = (.error .textTooLong, st) := by
  unfold fileRequestBody
  rw [if_pos hlen]

theorem fileRequestBody_memhit {model : EngineModel} {dir : String} {st : ServiceState}
    {text speed : String} (hlen : ¬text.length > max_text_length)
    (hhit : lruContains st.cache ("file:" ++ sha1Hex (text ++ speed)) = true) :
    fileRequestBody model dir st text speed =
      (.ok ⟨sha1Hex (text ++ speed), text, speed, sha1Hex (text ++ speed) ++ ".wav"⟩, st) := by
  unfold fileRequestBody
  rw [if_neg hlen]
  simp only [hhit, if_true]

theorem fileRequestBody_fshit {model : EngineModel} {dir : String} {st : ServiceState}
    {text speed : String} (hlen : ¬text.length > max_text_length)
    (hmiss : lruContains st.cache ("file:" ++ sha1Hex (text ++ speed)) = false)
    (hfs : (alistLookup st.files (dir ++ (sha1Hex (text ++ speed) ++ ".wav"))).isSome = true) :
    fileRequestBody model dir st text speed =
      (.ok ⟨sha1Hex (text ++ speed), text, speed, sha1Hex (text ++ speed) ++ ".wav"⟩,
       { st with cache := lruSet st.cap st.cache ("file:" ++ sha1Hex (text ++ speed)) .marker }) := by
  unfold fileRequestBody
  rw [if_neg hlen]
  simp only [hmiss, hfs, if_true, Bool.false_eq_true, if_false]

theorem fileRequestBody_miss {model : EngineModel} {dir : String} {st : ServiceState}
    {text speed : String} (hlen : ¬text.length > max_text_length)
    (hmiss : lruContains st.cache ("file:" ++ sha1Hex (text ++ speed)) = false)
    (hfs : alistLookup st.files (dir ++ (sha1Hex (text ++ speed) ++ ".wav")) = none) :
    fileRequestBody model dir st text speed =
      match model.synthFile text speed with
      | none => (.error .synthFailed, { st with fileCalls := st.fileCalls + 1 })
      | some none => (.error .fileNotCreated, { st with fileCalls := st.fileCalls + 1 })
      | some (some bytes) =>
          (.ok ⟨sha1Hex (text ++ speed), text, speed, sha1Hex (text ++ speed) ++ ".wav"⟩,
           { st with
             files := alistSet st.files (dir ++ (sha1Hex (text ++ speed) ++ ".wav")) bytes,
             cache := lruSet st.cap st.cache ("file:" ++ sha1Hex (text ++ speed)) .marker,
             fileCalls := st.fileCalls + 1 }) := by
  unfold fileRequestBody
  rw [if_neg hlen]
  simp only [hmiss, hfs, Bool.false_eq_true, if_false, Option.isSome_none]

theorem streamRequestBody_toolong {model : EngineModel} {st : ServiceState}
    {text speed : String} (hlen : text.length > max_text_length) :
    streamRequestBody model st text speed = (.error .textTooLong, st) := by
  unfold streamRequestBody
  rw [if_pos hlen]

theorem lruGet_some_contains {c : LRU} {k : String} {v : CacheVal} {c' : LRU}
    (h : lruGet c k = (some v, c')) : lruContains c k = true := by
  unfold lruGet at h
  cases hf : c.find? (fun p => p.1 == k) with
  | none => rw [hf] at h; cases h
  | some e => exact (lruContains_iff_find? c k).mpr ⟨e, hf⟩

theorem streamRequestBody_hit {model : EngineModel} {st : ServiceState}
    {text speed : String} {bid : Nat} {c' : LRU} {b : Buffer}
    (hlen : ¬text.length > max_text_length)
    (hget : lruGet st.cache ("stream:" ++ sha1Hex (text ++ speed)) = (some (.buf bid), c'))
    (hbuf : alistLookup st.bufs bid = some b) :
    streamRequestBody model st text speed =
      (.ok bid, { st with cache := c', bufs := alistSet st.bufs bid { b with pos := 0 } }) := by
  unfold streamRequestBody
  rw [if_neg hlen]
  simp only [lruGet_some_contains hget, if_true, hget, hbuf]

theorem streamRequestBody_miss {model : EngineModel} {st : ServiceState}
    {text speed : String}
    (hlen : ¬text.length > max_text_length)
    (hmiss : lruContains st.cache ("stream:" ++ sha1Hex (text ++ speed)) = false) :
    streamRequestBody model st text speed =
      match model.synthStream text speed with
      | none => (.error .synthFailed, { st with streamCalls := st.streamCalls + 1 })
      | some bytes =>
          (.ok st.nextId,
           { st with
             bufs := alistSet st.bufs st.nextId ⟨bytes, 0⟩,
             cache := lruSet st.cap st.cache
               ("stream:" ++ sha1Hex (text ++ speed)) (.buf st.nextId),
             nextId := st.nextId + 1,
             streamCalls := st.streamCalls + 1 }) := by
  unfold streamRequestBody
  rw [if_neg hlen]
  simp only [hmiss, Bool.false_eq_true, if_false]

/-! ## Shape of successful results -/

theorem fileRequestBody_ok_fields {model : EngineModel} {dir : String} {st : ServiceState}
    {text speed : String} {res : TTSResult} {st' : ServiceState}
    (h : fileRequestBody model dir st text speed = (.ok res, st')) :
    res = ⟨sha1Hex (text ++ speed), text, speed, sha1Hex (text ++ speed) ++ ".wav"⟩ := by
  by_cases hlen : text.length > max_text_length
  · rw [fileRequestBody_toolong hlen] at h
    simp at h
  · by_cases hhit : lruContains st.cache ("file:" ++ sha1Hex (text ++ speed)) = true
    · rw [fileRequestBody_memhit hlen hhit] at h
      simp only [Prod.mk.injEq, Except.ok.injEq] at h
      exact h.1.symm
    · have hhit' : lruContains st.cache ("file:" ++ sha1Hex (text ++ speed)) = false := by
        simpa using hhit
      by_cases hfs :
          (alistLookup st.files (dir ++ (sha1Hex (text ++ speed) ++ ".wav"))).isSome = true
      · rw [fileRequestBody_fshit hlen hhit' hfs] at h
        simp only [Prod.mk.injEq, Except.ok.injEq] at h
        exact h.1.symm
      · have hfs' : alistLookup st.files (dir ++ (sha1Hex (text ++ speed) ++ ".wav")) = none := by
          rcases hv : alistLookup st.files (dir ++ (sha1Hex (text ++ speed) ++ ".wav")) with _ | v
          · rfl
          · rw [hv] at hfs; simp at hfs
        rw [fileRequestBody_miss hlen hhit' hfs'] at h
        cases hsf : model.synthFile text speed with
        | none => rw [hsf] at h; simp at h
        | some o =>
            cases o with
            | none => rw [hsf] at h; simp at h
            | some bytes =>
                rw [hsf] at h
                simp only [Prod.mk.injEq, Except.ok.injEq] at h
                exact h.1.symm

theorem handle_file_ok_blank {model : EngineModel} {dir : String} {st : ServiceState}
    {text speed : String} {res : TTSResult} {st' : ServiceState}
    (h : handle_tts_request model dir st text speed = (.ok res, st')) :
    blankText text = false := by
  cases hb : blankText text with
  | false => rfl
  | true =>
      unfold handle_tts_request at h
      rw [hb] at h
      simp at h

theorem handle_file_ok_fields {model : EngineModel} {dir : String} {st : ServiceState}
    {text speed : String} {res : TTSResult} {st' : ServiceState}
    (h : handle_tts_request model dir st text speed = (.ok res, st')) :
    res = ⟨sha1Hex (text ++ normalizeSpeedFile speed), text, normalizeSpeedFile speed,
           sha1Hex (text ++ normalizeSpeedFile speed) ++ ".wav"⟩ := by
  have hb := handle_file_ok_blank h
  rw [handle_file_eq_body hb] at h
  exact fileRequestBody_ok_fields h

theorem lruGet_contains_promoted {c : LRU} {k : String} {v : CacheVal} {c' : LRU}
    (h : lruGet c k = (some v, c')) : lruContains c' k = true := by
  unfold lruGet at h
  cases hf : c.find? (fun p => p.1 == k) with
  | none => rw [hf] at h; cases h
  | some e =>
      rw [hf] at h
      have hc' : c' = c.filter (fun p => !(p.1 == k)) ++ [e] := by
        have := congrArg Prod.snd h
        simpa using this.symm
      have hp := List.find?_some hf
      subst hc'
      unfold lruContains
      rw [List.any_append]
      have : List.any [e] (fun p => p.1 == k) = true := by simpa using hp
      rw [this]
      simp

theorem streamRequestBody_ok_key {model : EngineModel} {st : ServiceState}
    {text speed : String} {bid : Nat} {st₂ : ServiceState}
    (h : streamRequestBody model st text speed = (.ok bid, st₂)) :
    lruContains st₂.cache ("stream:" ++ sha1Hex (text ++ speed)) = true := by
  by_cases hlen : text.length > max_text_length
  · rw [streamRequestBody_toolong hlen] at h
    simp at h
  · by_cases hhit : lruContains st.cache ("stream:" ++ sha1Hex (text ++ speed)) = true
    · obtain ⟨e, hfind⟩ := (lruContains_iff_find? _ _).mp hhit
      have hget : lruGet st.cache ("stream:" ++ sha1Hex (text ++ speed)) =
          (some e.2,
           st.cache.filter (fun p => !(p.1 == "stream:" ++ sha1Hex (text ++ speed))) ++ [e]) := by
        unfold lruGet
        rw [hfind]
      have hprom : lruContains
          (st.cache.filter (fun p => !(p.1 == "stream:" ++ sha1Hex (text ++ speed))) ++ [e])
          ("stream:" ++ sha1Hex (text ++ speed)) = true := by
        have hp := List.find?_some hfind
        unfold lruContains
        rw [List.any_append]
        have he : List.any [e] (fun p => p.1 == "stream:" ++ sha1Hex (text ++ speed)) = true := by
          simpa using hp
        rw [he]
        simp
      unfold streamRequestBody at h
      rw [if_neg hlen] at h
      simp only [hhit, if_true, hget] at h
      cases he2 : e.2 with
      | marker => rw [he2] at h; simp at h
      | buf bid' =>
          rw [he2] at h
          simp only [] at h
          cases hlk : alistLookup st.bufs bid' with
          | some b =>
              rw [hlk] at h
              simp only [Prod.mk.injEq, Except.ok.injEq] at h
              rw [← h.2]
              exact hprom
          | none =>
              rw [hlk] at h
              simp only [Prod.mk.injEq, Except.ok.injEq] at h
              rw [← h.2]
              exact hprom
    · have hhit' : lruContains st.cache ("stream:" ++ sha1Hex (text ++ speed)) = false := by
        simpa using hhit
      rw [streamRequestBody_miss hlen hhit'] at h
      cases hsf : model.synthStream text speed with
      | none => rw [hsf] at h; simp at h
      | some bytes =>
          rw [hsf] at h
          simp only [Prod.mk.injEq, Except.ok.injEq] at h
          rw [← h.2]
          exact lruContains_lruSet_self _ _ _ _

/-! ## Speed-coercion congruences -/

theorem handle_file_speed_coerce {model : EngineModel} {dir : String} {st : ServiceState}
    {text speed : String} (h : valid_speeds.contains speed = false) :
    handle_tts_request model dir st text speed =
      handle_tts_request model dir st text "normal" := by
  unfold handle_tts_request
  rw [normalizeSpeedFile_invalid h,
      normalizeSpeedFile_valid (by decide : valid_speeds.contains "normal" = true)]

theorem handle_stream_speed_coerce {model : EngineModel} {st : ServiceState}
    {text speed : String} (h : valid_speeds.contains speed = false) :
    handle_tts_streaming_request model st text speed =
      handle_tts_streaming_request model st text "normal" := by
  unfold handle_tts_streaming_request
  rw [normalizeSpeedStream_invalid h,
      normalizeSpeedStream_valid (by decide : valid_speeds.contains "normal" = true)]

/-! ## C6 -/

/-- C6: in both handlers, empty or whitespace-only text raises the
empty-text `ValueError` and over-long text (> 10000 characters) raises the
too-long `ValueError`, in each case returning with the service state untouched
(so before any cache lookup or engine invocation); an unrecognized speed such
as `"banana"` is not rejected but coerced, making the request identical to a
`"normal"`-speed request. -/
theorem C6_validation_boundaries (model : EngineModel) (dir : String) (st : ServiceState)
    (text speed : String) :
    (blankText text = true →
      handle_tts_request model dir st text speed = (.error .emptyText, st)
      ∧ handle_tts_streaming_request model st text speed = (.error .emptyText, st))
    ∧ (blankText text = false → text.length > 10000 →
      handle_tts_request model dir st text speed = (.error .textTooLong, st)
      ∧ handle_tts_streaming_request model st text speed = (.error .textTooLong, st))
    ∧ (valid_speeds.contains speed = false →
      handle_tts_request model dir st text speed = handle_tts_request model dir st text "normal"
      ∧ handle_tts_streaming_request model st text speed =
          handle_tts_streaming_request model st text "normal") := by
  refine ⟨?_, ?_, ?_⟩
  · intro hb
    constructor
    · unfold handle_tts_request; simp [hb]
    · unfold handle_tts_streaming_request; simp [hb]
  · intro hb hlen
    have hlen' : text.length > max_text_length := by simpa [max_text_length] using hlen
    exact ⟨by rw [handle_file_eq_body hb, fileRequestBody_toolong hlen'],
           by rw [handle_stream_eq_body hb, streamRequestBody_toolong hlen']⟩
  · intro hs
    exact ⟨handle_file_speed_coerce hs, handle_stream_speed_coerce hs⟩

/-- C6 at concrete inputs: whitespace-only text `" "`, a 10001-character text,
and the unrecognized speed `"banana"`. -/
theorem C6_validation_boundaries_witness :
    (handle_tts_request demoEngine "audio/" initState " " "normal" =
      (.error .emptyText, initState))
    ∧ (handle_tts_request demoEngine "audio/" initState
        (String.mk (List.replicate 10001 'a')) "normal" = (.error .textTooLong, initState))
    ∧ (handle_tts_streaming_request demoEngine initState "hi" "banana" =
        handle_tts_streaming_request demoEngine initState "hi" "normal") := by
  refine ⟨?_, ?_, ?_⟩
  · exact ((C6_validation_boundaries demoEngine "audio/" initState " " "normal").1
      (by decide)).1
  · exact ((C6_validation_boundaries demoEngine "audio/" initState
        (String.mk (List.replicate 10001 'a')) "normal").2.1
      (by decide)
      (by rw [string_mk_length, List.length_replicate]; omega)).1
  · exact ((C6_validation_boundaries demoEngine "audio/" initState "hi" "banana").2.2
      (by decide)).2

/-! ## C10 -/

/-- C10: a speed outside the five canonical labels is coerced to
`"normal"` before fingerprinting, so the file-mode request is
indistinguishable from a `"normal"` request: same handler output (hence same
hash, file name, cache entry and on-disk file), and the returned speed field
is `"normal"`, not the caller's string. -/
theorem C10_invalid_speed_alias (model : EngineModel) (dir : String) (st : ServiceState)
    (text speed : String) (h : valid_speeds.contains speed = false) :
    handle_tts_request model dir st text speed = handle_tts_request model dir st text "normal"
    ∧ (∀ res st', handle_tts_request model dir st text speed = (.ok res, st') →
        res.hash = sha1Hex (text ++ "normal") ∧ res.speed = "normal"
        ∧ res.file_name = sha1Hex (text ++ "normal") ++ ".wav") := by
  refine ⟨handle_file_speed_coerce h, ?_⟩
  intro res st' hok
  have hf := handle_file_ok_fields hok
  rw [normalizeSpeedFile_invalid h] at hf
  subst hf
  exact ⟨rfl, rfl, rfl⟩

/-- C10 at the concrete unrecognized speed `"banana"`. -/
theorem C10_invalid_speed_alias_witness :
    handle_tts_request demoEngine "audio/" initState "hi" "banana" =
      handle_tts_request demoEngine "audio/" initState "hi" "normal" :=
  (C10_invalid_speed_alias demoEngine "audio/" initState "hi" "banana" (by decide)).1

/-! ## C9 -/

/-- C9: the speed-to-scale mapping handed to the engine's duration control
(`length_scale` in `SynthesisConfig`) is exactly `very_slow ↦ 1.5`,
`slow ↦ 1.2`, `normal ↦ 1.0`, `fast ↦ 0.6`, `very_fast ↦ 0.4`, in both the
file-synthesis and the streaming-synthesis entry points of `PiperTTS`. -/
theorem C9_speed_values (text : String) (h : blankText text = false) :
    text_to_speech_length_scale text "very_slow" = .ok (1.5 : ℚ)
    ∧ text_to_speech_length_scale text "slow" = .ok (1.2 : ℚ)
    ∧ text_to_speech_length_scale text "normal" = .ok (1.0 : ℚ)
    ∧ text_to_speech_length_scale text "fast" = .ok (0.6 : ℚ)
    ∧ text_to_speech_length_scale text "very_fast" = .ok (0.4 : ℚ)
    ∧ text_to_speech_streaming_length_scale text "very_slow" = .ok (1.5 : ℚ)
    ∧ text_to_speech_streaming_length_scale text "slow" = .ok (1.2 : ℚ)
    ∧ text_to_speech_streaming_length_scale text "normal" = .ok (1.0 : ℚ)
    ∧ text_to_speech_streaming_length_scale text "fast" = .ok (0.6 : ℚ)
    ∧ text_to_speech_streaming_length_scale text "very_fast" = .ok (0.4 : ℚ) := by
  unfold text_to_speech_length_scale text_to_speech_streaming_length_scale
  simp [h, alistLookup, SPEED_VALUES, List.find?]

/-- C9 at the concrete text `"hi"`. -/
theorem C9_speed_values_witness :
    text_to_speech_length_scale "hi" "fast" = .ok (0.6 : ℚ)
    ∧ text_to_speech_streaming_length_scale "hi" "very_slow" = .ok (1.5 : ℚ) :=
  ⟨(C9_speed_values "hi" (by decide)).2.2.2.1,
   (C9_speed_values "hi" (by decide)).2.2.2.2.2.1⟩

/-! ## C8 -/

theorem lru_apply_length_le {cap : Nat} (hcap : 1 ≤ cap) (ops : List CacheOp) :
    ∀ c : LRU, c.length ≤ cap → (applyOps cap ops c).length ≤ cap := by
  induction ops with
  | nil => intro c hc; exact hc
  | cons op ops ih =>
      intro c hc
      show (applyOps cap ops (applyOp cap c op)).length ≤ cap
      apply ih
      cases op with
      | get k => exact Nat.le_trans (lruGet_length_le c k) hc
      | set k v => exact lruSet_length_le hcap hc k v

/-- C8: starting from the empty cache created at startup, no sequence of
promoting reads and writes ever makes the LRU cache exceed its capacity; and
in the concrete capacity-3 scenario insert `a`, `b`, `c`, read `a`, insert `d`,
the entry `b` is evicted (it is the least recently used by access order, since
the read promoted `a`) and exactly `c`, `a`, `d` remain. -/
theorem C8_lru_bound_and_eviction (cap : Nat) (ops : List CacheOp) (hcap : 1 ≤ cap) :
    (applyOps cap ops []).length ≤ cap
    ∧ applyOps 3
        [.set "a" .marker, .set "b" .marker, .set "c" .marker, .get "a", .set "d" .marker]
        [] = [("c", .marker), ("a", .marker), ("d", .marker)] :=
  ⟨lru_apply_length_le hcap ops [] (by simp), by decide⟩

/-- C8 at the default capacity 128 of `provide_audio_cache` and a concrete
operation sequence. -/
theorem C8_lru_bound_and_eviction_witness :
    (applyOps provide_audio_cache_maxsize
      [.set "x" .marker, .get "x", .set "y" .marker] []).length ≤
        provide_audio_cache_maxsize :=
  (C8_lru_bound_and_eviction provide_audio_cache_maxsize
    [.set "x" .marker, .get "x", .set "y" .marker] (by decide)).1

/-! ## C1 -/

/-- C1 (amended): for every successful file-mode request the returned
fingerprint is the SHA-1 hex digest of the UTF-8 bytes of `text` concatenated
(no separator) with the **normalized** speed — which equals `text ++ speed`
whenever `speed` is one of the five canonical labels — rendered as a
fixed-width 40-character lowercase hex string, and `file_name` is that
fingerprint followed by `".wav"`; a successful stream-mode request for the
same inputs caches under `"stream:"` followed by the same fingerprint. Over
unrecognized speeds the original claim fails because coercion to `"normal"`
happens before hashing (see the counterexample). -/
theorem C1_fingerprint (model : EngineModel) (dir : String) (st : ServiceState)
    (text speed : String) (res : TTSResult) (st' : ServiceState)
    (hok : handle_tts_request model dir st text speed = (.ok res, st')) :
    res.hash = sha1Hex (text ++ normalizeSpeedFile speed)
    ∧ res.file_name = res.hash ++ ".wav"
    ∧ (valid_speeds.contains speed = true → res.hash = sha1Hex (text ++ speed))
    ∧ res.hash.length = 40
    ∧ (∀ c ∈ res.hash.data, isLowerHexDigit c = true)
    ∧ (∀ bid st₂, handle_tts_streaming_request model st text speed = (.ok bid, st₂) →
        lruContains st₂.cache ("stream:" ++ res.hash) = true) := by
  have hb := handle_file_ok_blank hok
  have hf := handle_file_ok_fields hok
  subst hf
  refine ⟨rfl, rfl, ?_, sha1Hex_length _, sha1Hex_lower _, ?_⟩
  · intro hv
    rw [normalizeSpeedFile_valid hv]
  · intro bid st₂ hsok
    rw [handle_stream_eq_body hb] at hsok
    have hkey := streamRequestBody_ok_key hsok
    show lruContains st₂.cache ("stream:" ++ sha1Hex (text ++ normalizeSpeedFile speed)) = true
    rw [normalizeSpeedFile_eq_stream]
    exact hkey

/-- C1 (amended) at the concrete request `("a", "normal")` against an engine
that writes the one-byte file `[0]`. -/
theorem C1_fingerprint_witness :
    (⟨sha1Hex ("a" ++ "normal"), "a", "normal", sha1Hex ("a" ++ "normal") ++ ".wav"⟩ :
      TTSResult).hash.length = 40 := by
  have hok : handle_tts_request demoEngine "audio/" initState "a" "normal" =
      (.ok ⟨sha1Hex ("a" ++ "normal"), "a", "normal", sha1Hex ("a" ++ "normal") ++ ".wav"⟩,
       { initState with
         files := alistSet initState.files ("audio/" ++ (sha1Hex ("a" ++ "normal") ++ ".wav")) [0],
         cache := lruSet initState.cap initState.cache
           ("file:" ++ sha1Hex ("a" ++ "normal")) .marker,
         fileCalls := 1 }) := by
    rw [handle_file_eq_body (by decide),
        show normalizeSpeedFile "normal" = "normal" from by decide,
        fileRequestBody_miss (by decide) (by decide) (by decide)]
    rfl
  exact (C1_fingerprint demoEngine "audio/" initState "a" "normal" _ _ hok).2.2.2.1

set_option maxRecDepth 100000 in
/-- C1 as literally stated is false at `(text, speed) = ("a", "banana")`: the
handlers fingerprint with the coerced speed `"normal"`, and SHA-1 of
`"anormal"` differs from SHA-1 of `"abanana"`. -/
theorem C1_counterexample :
    (handle_tts_request demoEngine "audio/" initState "a" "banana").1 =
      .ok ⟨sha1Hex ("a" ++ "normal"), "a", "normal", sha1Hex ("a" ++ "normal") ++ ".wav"⟩
    ∧ sha1Hex ("a" ++ "normal") ≠ sha1Hex ("a" ++ "banana") := by
  constructor
  · rw [handle_file_eq_body (by decide),
        show normalizeSpeedFile "banana" = "normal" from by decide,
        fileRequestBody_miss (by decide) (by decide) (by decide)]
    rfl
  · decide

/-! ## C4 -/

/-- C4 (amended): on a full cache-and-filesystem miss the gateway, after
invoking the engine, verifies only that the output file **exists** at the
result path — if not, the request fails with the synthesis `ValueError`
(`fileNotCreated`) and nothing is cached. The file size is logged but never
checked, so an engine call that leaves an existing zero-byte file is cached
(marker insert) and returned like any non-empty result. (As literally stated
the claim fails: an existing zero-byte output does not fail the request — see
the counterexample.) -/
theorem C4_exists_check (model : EngineModel) (dir : String) (st : ServiceState)
    (text speed : String)
    (hb : blankText text = false)
    (hlen : ¬text.length > max_text_length)
    (hmiss : lruContains st.cache
      ("file:" ++ sha1Hex (text ++ normalizeSpeedFile speed)) = false)
    (hfs : alistLookup st.files
      (dir ++ (sha1Hex (text ++ normalizeSpeedFile speed) ++ ".wav")) = none) :
    (model.synthFile text (normalizeSpeedFile speed) = some none →
      handle_tts_request model dir st text speed =
        (.error .fileNotCreated, { st with fileCalls := st.fileCalls + 1 }))
    ∧ (∀ bytes, model.synthFile text (normalizeSpeedFile speed) = some (some bytes) →
      handle_tts_request model dir st text speed =
        (.ok ⟨sha1Hex (text ++ normalizeSpeedFile speed), text, normalizeSpeedFile speed,
              sha1Hex (text ++ normalizeSpeedFile speed) ++ ".wav"⟩,
         { st with
           files := alistSet st.files
             (dir ++ (sha1Hex (text ++ normalizeSpeedFile speed) ++ ".wav")) bytes,
           cache := lruSet st.cap st.cache
             ("file:" ++ sha1Hex (text ++ normalizeSpeedFile speed)) .marker,
           fileCalls := st.fileCalls + 1 })) := by
  constructor
  · intro hsf
    rw [handle_file_eq_body hb, fileRequestBody_miss hlen hmiss hfs, hsf]
  · intro bytes hsf
    rw [handle_file_eq_body hb, fileRequestBody_miss hlen hmiss hfs, hsf]

set_option maxRecDepth 10000 in
/-- C4 (amended) at the concrete request `("hi", "normal")` against an engine
that leaves a zero-byte file. -/
theorem C4_exists_check_witness :
    handle_tts_request zeroByteEngine "audio/" initState "hi" "normal" =
      (.ok ⟨sha1Hex ("hi" ++ normalizeSpeedFile "normal"), "hi", normalizeSpeedFile "normal",
            sha1Hex ("hi" ++ normalizeSpeedFile "normal") ++ ".wav"⟩,
       { initState with
         files := alistSet initState.files
           ("audio/" ++ (sha1Hex ("hi" ++ normalizeSpeedFile "normal") ++ ".wav")) [],
         cache := lruSet initState.cap initState.cache
           ("file:" ++ sha1Hex ("hi" ++ normalizeSpeedFile "normal")) .marker,
         fileCalls := initState.fileCalls + 1 }) :=
  (C4_exists_check zeroByteEngine "audio/" initState "hi" "normal" (by decide) (by decide)
    (by decide) (by decide)).2 [] (by decide)

set_option maxRecDepth 100000 in
/-- C4 as literally stated is false at `("hi", "normal")` with an engine that
produces an existing but zero-byte file: the request succeeds, the zero-byte
file is on disk, and the fingerprint is cached — it does not fail. -/
theorem C4_counterexample :
    (handle_tts_request zeroByteEngine "audio/" initState "hi" "normal").1 =
      .ok ⟨sha1Hex ("hi" ++ "normal"), "hi", "normal", sha1Hex ("hi" ++ "normal") ++ ".wav"⟩
    ∧ lruContains
        (handle_tts_request zeroByteEngine "audio/" initState "hi" "normal").2.cache
        ("file:" ++ sha1Hex ("hi" ++ "normal")) = true
    ∧ alistLookup
        (handle_tts_request zeroByteEngine "audio/" initState "hi" "normal").2.files
        ("audio/" ++ (sha1Hex ("hi" ++ "normal") ++ ".wav")) = some [] := by
  have hrun : handle_tts_request zeroByteEngine "audio/" initState "hi" "normal" =
      (.ok ⟨sha1Hex ("hi" ++ "normal"), "hi", "normal", sha1Hex ("hi" ++ "normal") ++ ".wav"⟩,
       { initState with
         files := alistSet initState.files
           ("audio/" ++ (sha1Hex ("hi" ++ "normal") ++ ".wav")) [],
         cache := lruSet initState.cap initState.cache
           ("file:" ++ sha1Hex ("hi" ++ "normal")) .marker,
         fileCalls := initState.fileCalls + 1 }) := by
    rw [handle_file_eq_body (by decide),
        show normalizeSpeedFile "normal" = "normal" from by decide,
        fileRequestBody_miss (by decide) (by decide) (by decide)]
    rfl
  refine ⟨?_, ?_, ?_⟩
  · rw [hrun]
  · rw [hrun]
    show lruContains
      (lruSet initState.cap initState.cache ("file:" ++ sha1Hex ("hi" ++ "normal")) .marker)
      ("file:" ++ sha1Hex ("hi" ++ "normal")) = true
    exact lruContains_lruSet_self _ _ _ _
  · rw [hrun]
    show alistLookup
      (alistSet initState.files ("audio/" ++ (sha1Hex ("hi" ++ "normal") ++ ".wav")) [])
      ("audio/" ++ (sha1Hex ("hi" ++ "normal") ++ ".wav")) = some []
    exact alistLookup_set_self _ _ _

/-! ## C7 -/

/-- C7: when the engine invocation raises during a cache miss, neither
handler inserts anything into the cache — the returned state differs from the
request state only in the invocation counter, so the cache (and filesystem)
are exactly as before — and a second identical request misses again and
retries the full synthesis path (the counter advances once per attempt). -/
theorem C7_failed_synthesis_not_cached (model : EngineModel) (dir : String)
    (st : ServiceState) (text speed : String)
    (hb : blankText text = false)
    (hlen : ¬text.length > max_text_length)
    (hfe : model.synthFile text (normalizeSpeedFile speed) = none)
    (hse : model.synthStream text (normalizeSpeedStream speed) = none)
    (hmissF : lruContains st.cache
      ("file:" ++ sha1Hex (text ++ normalizeSpeedFile speed)) = false)
    (hfsF : alistLookup st.files
      (dir ++ (sha1Hex (text ++ normalizeSpeedFile speed) ++ ".wav")) = none)
    (hmissS : lruContains st.cache
      ("stream:" ++ sha1Hex (text ++ normalizeSpeedStream speed)) = false) :
    handle_tts_request model dir st text speed =
      (.error .synthFailed, { st with fileCalls := st.fileCalls + 1 })
    ∧ handle_tts_streaming_request model st text speed =
      (.error .synthFailed, { st with streamCalls := st.streamCalls + 1 })
    ∧ runFileTwice model dir st text speed =
      (.error .synthFailed, .error .synthFailed, { st with fileCalls := st.fileCalls + 2 })
    ∧ handle_tts_streaming_request model
        { st with streamCalls := st.streamCalls + 1 } text speed =
      (.error .synthFailed, { st with streamCalls := st.streamCalls + 2 }) := by
  have h1 : handle_tts_request model dir st text speed =
      (.error .synthFailed, { st with fileCalls := st.fileCalls + 1 }) := by
    rw [handle_file_eq_body hb, fileRequestBody_miss hlen hmissF hfsF, hfe]
  have h2 : handle_tts_streaming_request model st text speed =
      (.error .synthFailed, { st with streamCalls := st.streamCalls + 1 }) := by
    rw [handle_stream_eq_body hb, streamRequestBody_miss hlen hmissS, hse]
  have hmissF' : lruContains ({ st with fileCalls := st.fileCalls + 1 } :
      ServiceState).cache ("file:" ++ sha1Hex (text ++ normalizeSpeedFile speed)) = false :=
    hmissF
  have hfsF' : alistLookup ({ st with fileCalls := st.fileCalls + 1 } :
      ServiceState).files
      (dir ++ (sha1Hex (text ++ normalizeSpeedFile speed) ++ ".wav")) = none := hfsF
  have hmissS' : lruContains ({ st with streamCalls := st.streamCalls + 1 } :
      ServiceState).cache
      ("stream:" ++ sha1Hex (text ++ normalizeSpeedStream speed)) = false := hmissS
  refine ⟨h1, h2, ?_, ?_⟩
  · unfold runFileTwice
    rw [h1]
    simp only []
    have h1' : handle_tts_request model dir { st with fileCalls := st.fileCalls + 1 }
        text speed =
        (.error .synthFailed, { st with fileCalls := st.fileCalls + 1 + 1 }) := by
      rw [handle_file_eq_body hb, fileRequestBody_miss hlen hmissF' hfsF', hfe]
    rw [h1']
  · rw [handle_stream_eq_body hb, streamRequestBody_miss hlen hmissS', hse]

/-- C7 at the concrete request `("hi", "normal")` against an engine whose
synthesis always raises. -/
theorem C7_failed_synthesis_not_cached_witness :
    handle_tts_request ⟨fun _ _ => none, fun _ _ => none⟩ "audio/" initState "hi" "normal" =
      (.error .synthFailed, { initState with fileCalls := initState.fileCalls + 1 })
    ∧ runFileTwice ⟨fun _ _ => none, fun _ _ => none⟩ "audio/" initState "hi" "normal" =
      (.error .synthFailed, .error .synthFailed,
       { initState with fileCalls := initState.fileCalls + 2 }) := by
  have h := C7_failed_synthesis_not_cached ⟨fun _ _ => none, fun _ _ => none⟩ "audio/"
    initState "hi" "normal" (by decide) (by decide) (by decide) (by decide) (by decide)
    (by decide) (by decide)
  exact ⟨h.1, h.2.2.1⟩

/-! ## C2 -/

set_option maxRecDepth 10000 in
/-- C2: two sequential identical valid file-mode requests, against an
engine that succeeds when called, both return the same successful
`{hash, file_name}` payload; the second request performs no engine call (it is
answered by the memory cache — in the filesystem-hit case via the marker that
check inserted), so `model.text_to_speech` runs at most once across the two
requests. -/
theorem C2_file_idempotent (model : EngineModel) (dir : String) (st : ServiceState)
    (text speed : String) (bytes : List Nat)
    (r1 r2 : Except TTSError TTSResult) (st1 st2 : ServiceState)
    (hb : blankText text = false)
    (hlen : ¬text.length > max_text_length)
    (heng : model.synthFile text (normalizeSpeedFile speed) = some (some bytes))
    (h1 : handle_tts_request model dir st text speed = (r1, st1))
    (h2 : handle_tts_request model dir st1 text speed = (r2, st2)) :
    (r1 = .ok ⟨sha1Hex (text ++ normalizeSpeedFile speed), text, normalizeSpeedFile speed,
               sha1Hex (text ++ normalizeSpeedFile speed) ++ ".wav"⟩ ∧ r2 = r1)
    ∧ st2.fileCalls = st1.fileCalls
    ∧ st1.fileCalls ≤ st.fileCalls + 1 := by
  rw [handle_file_eq_body hb] at h1 h2
  by_cases hhit : lruContains st.cache
      ("file:" ++ sha1Hex (text ++ normalizeSpeedFile speed)) = true
  · rw [fileRequestBody_memhit hlen hhit] at h1
    injection h1 with hA hB
    subst hA
    subst hB
    rw [fileRequestBody_memhit hlen hhit] at h2
    injection h2 with hC hD
    subst hC
    subst hD
    exact ⟨⟨rfl, rfl⟩, rfl, by omega⟩
  · have hhit' : lruContains st.cache
        ("file:" ++ sha1Hex (text ++ normalizeSpeedFile speed)) = false := by
      simpa using hhit
    by_cases hfs : (alistLookup st.files
        (dir ++ (sha1Hex (text ++ normalizeSpeedFile speed) ++ ".wav"))).isSome = true
    · rw [fileRequestBody_fshit hlen hhit' hfs] at h1
      injection h1 with hA hB
      subst hA
      subst hB
      have hhit2 : lruContains ({ st with cache := lruSet st.cap st.cache ("file:" ++ sha1Hex (text ++ normalizeSpeedFile speed)) .marker } : ServiceState).cache ("file:" ++ sha1Hex (text ++ normalizeSpeedFile speed)) = true := by
        show lruContains
          (lruSet st.cap st.cache ("file:" ++ sha1Hex (text ++ normalizeSpeedFile speed)) .marker)
          ("file:" ++ sha1Hex (text ++ normalizeSpeedFile speed)) = true
        exact lruContains_lruSet_self _ _ _ _
      rw [fileRequestBody_memhit hlen hhit2] at h2
      injection h2 with hC hD
      subst hC
      subst hD
      refine ⟨⟨rfl, rfl⟩, rfl, ?_⟩
      show st.fileCalls ≤ st.fileCalls + 1
      omega
    · have hfs' : alistLookup st.files
          (dir ++ (sha1Hex (text ++ normalizeSpeedFile speed) ++ ".wav")) = none := by
        rcases hv : alistLookup st.files
            (dir ++ (sha1Hex (text ++ normalizeSpeedFile speed) ++ ".wav")) with _ | v
        · rfl
        · rw [hv] at hfs; simp at hfs
      rw [fileRequestBody_miss hlen hhit' hfs', heng] at h1
      injection h1 with hA hB
      subst hA
      subst hB
      have hhit2 : lruContains ({ st with files := alistSet st.files (dir ++ (sha1Hex (text ++ normalizeSpeedFile speed) ++ ".wav")) bytes, cache := lruSet st.cap st.cache ("file:" ++ sha1Hex (text ++ normalizeSpeedFile speed)) .marker, fileCalls := st.fileCalls + 1 } : ServiceState).cache ("file:" ++ sha1Hex (text ++ normalizeSpeedFile speed)) = true := by
        show lruContains
          (lruSet st.cap st.cache ("file:" ++ sha1Hex (text ++ normalizeSpeedFile speed)) .marker)
          ("file:" ++ sha1Hex (text ++ normalizeSpeedFile speed)) = true
        exact lruContains_lruSet_self _ _ _ _
      rw [fileRequestBody_memhit hlen hhit2] at h2
      injection h2 with hC hD
      subst hC
      subst hD
      refine ⟨⟨rfl, rfl⟩, rfl, ?_⟩
      show st.fileCalls + 1 ≤ st.fileCalls + 1
      omega

set_option maxRecDepth 10000 in
/-- C2 at the concrete request `("hi", "normal")` from a fresh service: the
first request synthesizes once, the second is a memory-cache hit. -/
theorem C2_file_idempotent_witness : c2State.fileCalls ≤ initState.fileCalls + 1 := by
  have hrun1 : handle_tts_request demoEngine "audio/" initState "hi" "normal" =
      (.ok ⟨sha1Hex ("hi" ++ normalizeSpeedFile "normal"), "hi", normalizeSpeedFile "normal", sha1Hex ("hi" ++ normalizeSpeedFile "normal") ++ ".wav"⟩, c2State) := by
    rw [handle_file_eq_body (by decide),
        fileRequestBody_miss (by decide) (by decide) (by decide)]
    rfl
  have hhitW : lruContains c2State.cache
      ("file:" ++ sha1Hex ("hi" ++ normalizeSpeedFile "normal")) = true := by
    show lruContains (lruSet initState.cap initState.cache ("file:" ++ sha1Hex ("hi" ++ normalizeSpeedFile "normal")) .marker) ("file:" ++ sha1Hex ("hi" ++ normalizeSpeedFile "normal")) = true
    exact lruContains_lruSet_self _ _ _ _
  have hrun2 : handle_tts_request demoEngine "audio/" c2State "hi" "normal" =
      (.ok ⟨sha1Hex ("hi" ++ normalizeSpeedFile "normal"), "hi", normalizeSpeedFile "normal", sha1Hex ("hi" ++ normalizeSpeedFile "normal") ++ ".wav"⟩, c2State) := by
    rw [handle_file_eq_body (by decide), fileRequestBody_memhit (by decide) hhitW]
  exact (C2_file_idempotent demoEngine "audio/" initState "hi" "normal" [0] _ _ _ _
    (by decide) (by decide) (by decide) hrun1 hrun2).2.2

/-! ## C3 -/

/-- C3: two sequential identical valid stream-mode requests (the second
issued after the first generator is exhausted), against an engine that
succeeds when called and from a state where the stream key is not yet cached,
yield the same chunk sequence — so byte-identical concatenated output — with
`model.text_to_speech_streaming` invoked exactly once (hence at most once)
across the two requests; every chunk is exactly 8192 bytes except possibly a
shorter (nonempty) final chunk, and the concatenation equals the cached WAV
buffer's contents. -/
theorem C3_stream_idempotent (model : EngineModel) (st : ServiceState)
    (text speed : String) (bytes : List Nat)
    (hb : blankText text = false)
    (hlen : ¬text.length > max_text_length)
    (heng : model.synthStream text (normalizeSpeedStream speed) = some bytes)
    (hmiss : lruContains st.cache
      ("stream:" ++ sha1Hex (text ++ normalizeSpeedStream speed)) = false) :
    ∃ cs stF, runStreamTwice model st text speed = some (cs, cs, stF)
      ∧ cs.flatten = bytes
      ∧ stF.streamCalls = st.streamCalls + 1
      ∧ (∀ c ∈ cs.dropLast, c.length = chunk_size)
      ∧ (∀ c ∈ cs, c.length ≤ chunk_size ∧ c ≠ []) := by
  have hcs : (1 : Nat) ≤ chunk_size := by decide
  refine ⟨chunksOf chunk_size bytes,
    { st with
      cache := (lruSet st.cap st.cache ("stream:" ++ sha1Hex (text ++ normalizeSpeedStream speed)) (.buf st.nextId)).filter (fun p => !(p.1 == "stream:" ++ sha1Hex (text ++ normalizeSpeedStream speed))) ++ [("stream:" ++ sha1Hex (text ++ normalizeSpeedStream speed), .buf st.nextId)],
      bufs := alistSet st.bufs st.nextId ⟨bytes, bytes.length⟩,
      nextId := st.nextId + 1,
      streamCalls := st.streamCalls + 1 },
    ?_, chunksOf_flatten hcs bytes, rfl, ?_, ?_⟩
  · simp only [runStreamTwice, handle_stream_eq_body hb,
      streamRequestBody_miss hlen hmiss, heng]
    have hlk1 : alistLookup ({ st with cache := lruSet st.cap st.cache ("stream:" ++ sha1Hex (text ++ normalizeSpeedStream speed)) (.buf st.nextId), bufs := alistSet st.bufs st.nextId ⟨bytes, 0⟩, nextId := st.nextId + 1, streamCalls := st.streamCalls + 1 } : ServiceState).bufs st.nextId = some ⟨bytes, 0⟩ := by
      show alistLookup (alistSet st.bufs st.nextId ⟨bytes, 0⟩) st.nextId = some ⟨bytes, 0⟩
      exact alistLookup_set_self _ _ _
    rw [drainGen_spec hlk1]
    simp only [List.drop_zero, Nat.zero_add, alistSet_set]
    have hget2 : lruGet ({ st with cache := lruSet st.cap st.cache ("stream:" ++ sha1Hex (text ++ normalizeSpeedStream speed)) (.buf st.nextId), bufs := alistSet st.bufs st.nextId ⟨bytes, bytes.length⟩, nextId := st.nextId + 1, streamCalls := st.streamCalls + 1 } : ServiceState).cache ("stream:" ++ sha1Hex (text ++ normalizeSpeedStream speed)) = (some (.buf st.nextId), (lruSet st.cap st.cache ("stream:" ++ sha1Hex (text ++ normalizeSpeedStream speed)) (.buf st.nextId)).filter (fun p => !(p.1 == "stream:" ++ sha1Hex (text ++ normalizeSpeedStream speed))) ++ [("stream:" ++ sha1Hex (text ++ normalizeSpeedStream speed), .buf st.nextId)]) := by
      show lruGet (lruSet st.cap st.cache ("stream:" ++ sha1Hex (text ++ normalizeSpeedStream speed)) (.buf st.nextId)) ("stream:" ++ sha1Hex (text ++ normalizeSpeedStream speed)) = _
      exact lruGet_lruSet_self _ _ _ _
    have hbuf2 : alistLookup ({ st with cache := lruSet st.cap st.cache ("stream:" ++ sha1Hex (text ++ normalizeSpeedStream speed)) (.buf st.nextId), bufs := alistSet st.bufs st.nextId ⟨bytes, bytes.length⟩, nextId := st.nextId + 1, streamCalls := st.streamCalls + 1 } : ServiceState).bufs st.nextId = some ⟨bytes, bytes.length⟩ := by
      show alistLookup (alistSet st.bufs st.nextId ⟨bytes, bytes.length⟩) st.nextId = some ⟨bytes, bytes.length⟩
      exact alistLookup_set_self _ _ _
    rw [streamRequestBody_hit hlen hget2 hbuf2]
    simp only [alistSet_set]
    have hlk3 : alistLookup ({ st with cache := (lruSet st.cap st.cache ("stream:" ++ sha1Hex (text ++ normalizeSpeedStream speed)) (.buf st.nextId)).filter (fun p => !(p.1 == "stream:" ++ sha1Hex (text ++ normalizeSpeedStream speed))) ++ [("stream:" ++ sha1Hex (text ++ normalizeSpeedStream speed), .buf st.nextId)], bufs := alistSet st.bufs st.nextId ⟨bytes, 0⟩, nextId := st.nextId + 1, streamCalls := st.streamCalls + 1 } : ServiceState).bufs st.nextId = some ⟨bytes, 0⟩ := by
      show alistLookup (alistSet st.bufs st.nextId ⟨bytes, 0⟩) st.nextId = some ⟨bytes, 0⟩
      exact alistLookup_set_self _ _ _
    rw [drainGen_spec hlk3]
    simp only [List.drop_zero, Nat.zero_add, alistSet_set]
  · intro c hc
    exact chunksOf_dropLast_mem hcs hc
  · intro c hc
    exact ⟨(chunksOf_mem hcs hc).2, (chunksOf_mem hcs hc).1⟩

/-- C3 at the concrete request `("hi", "normal")` with a one-byte stream. -/
theorem C3_stream_idempotent_witness :
    ∃ cs stF, runStreamTwice oneByteStreamEngine initState "hi" "normal" = some (cs, cs, stF)
      ∧ cs.flatten = [1]
      ∧ stF.streamCalls = initState.streamCalls + 1
      ∧ (∀ c ∈ cs.dropLast, c.length = chunk_size)
      ∧ (∀ c ∈ cs, c.length ≤ chunk_size ∧ c ≠ []) :=
  C3_stream_idempotent oneByteStreamEngine initState "hi" "normal" [1]
    (by decide) (by decide) (by decide) (by decide)

/-! ## C5 -/

theorem find?_key_filter_ne {κ ν : Type _} [BEq κ] [LawfulBEq κ]
    {m : List (κ × ν)} {k k' : κ} (h : (k == k') = false) :
    (m.filter (fun p => !(p.1 == k))).find? (fun p => p.1 == k') =
      m.find? (fun p => p.1 == k') := by
  induction m with
  | nil => rfl
  | cons a m ih =>
      by_cases ha : (a.1 == k) = true
      · have hak : a.1 = k := eq_of_beq ha
        have ha' : (a.1 == k') = false := by rw [hak]; exact h
        simp only [List.filter_cons, ha, Bool.not_true, Bool.false_eq_true, if_false,
          List.find?_cons, ha']
        exact ih
      · have ha2 : (a.1 == k) = false := by simpa using ha
        by_cases hak' : (a.1 == k') = true
        · simp only [List.filter_cons, ha2, Bool.not_false, if_true, List.find?_cons, hak']
        · have hak2 : (a.1 == k') = false := by simpa using hak'
          simp only [List.filter_cons, ha2, Bool.not_false, if_true, List.find?_cons, hak2]
          exact ih

theorem alistLookup_set_ne {κ ν : Type _} [BEq κ] [LawfulBEq κ]
    (m : List (κ × ν)) {k k' : κ} (v : ν) (h : (k == k') = false) :
    alistLookup (alistSet m k v) k' = alistLookup m k' := by
  unfold alistLookup alistSet
  simp only [List.find?_cons, h]
  rw [find?_key_filter_ne h]

/-- C5 (amended): every stream request resets the shared cached buffer's
read position to zero before its read-out, and generator reads advance only
that position — they never alter any buffer's contents (no consuming reads
that shrink the buffer) — so a generator drained with no interleaved reader
delivers the buffer's remaining contents in full. The read cursor, however,
is the buffer's own position and is shared between simultaneous generators
over the same cached buffer, so interleaved requests are **not** independent
(see the counterexample trace). -/
theorem C5_shared_cursor (model : EngineModel) (st : ServiceState) (text speed : String) :
    (∀ bid bid' b', alistLookup ((genRead st bid).2).bufs bid' = some b' →
       ∃ b, alistLookup st.bufs bid' = some b ∧ b'.contents = b.contents)
    ∧ (∀ bid st₂ b, handle_tts_streaming_request model st text speed = (.ok bid, st₂) →
        alistLookup st₂.bufs bid = some b → b.pos = 0)
    ∧ (∀ bid b, alistLookup st.bufs bid = some b →
        ((drainGen st bid).1).flatten = b.contents.drop b.pos) := by
  refine ⟨?_, ?_, ?_⟩
  · intro bid bid' b' hlk'
    unfold genRead at hlk'
    cases hlk0 : alistLookup st.bufs bid with
    | none =>
        rw [hlk0] at hlk'
        exact ⟨b', hlk', rfl⟩
    | some b0 =>
        rw [hlk0] at hlk'
        simp only [] at hlk'
        by_cases hbid : (bid == bid') = true
        · have hb := eq_of_beq hbid
          subst hb
          have hlk2 : alistLookup (alistSet st.bufs bid
              { b0 with pos := b0.pos + ((b0.contents.drop b0.pos).take chunk_size).length })
              bid = some b' := hlk'
          rw [alistLookup_set_self] at hlk2
          refine ⟨b0, hlk0, ?_⟩
          rw [← Option.some.injEq] at hlk2
          cases hlk2
          rfl
        · have hbid2 : (bid == bid') = false := by simpa using hbid
          have hlk2 : alistLookup (alistSet st.bufs bid
              { b0 with pos := b0.pos + ((b0.contents.drop b0.pos).take chunk_size).length })
              bid' = some b' := hlk'
          rw [alistLookup_set_ne _ _ hbid2] at hlk2
          exact ⟨b', hlk2, rfl⟩
  · intro bid st₂ b hok hlk
    by_cases hblank : blankText text = true
    · unfold handle_tts_streaming_request at hok
      rw [hblank] at hok
      simp at hok
    · have hb0 : blankText text = false := by simpa using hblank
      rw [handle_stream_eq_body hb0] at hok
      by_cases hlen : text.length > max_text_length
      · rw [streamRequestBody_toolong hlen] at hok
        simp at hok
      · by_cases hhit : lruContains st.cache
            ("stream:" ++ sha1Hex (text ++ normalizeSpeedStream speed)) = true
        · obtain ⟨e, hfind⟩ := (lruContains_iff_find? _ _).mp hhit
          have hget : lruGet st.cache
              ("stream:" ++ sha1Hex (text ++ normalizeSpeedStream speed)) =
              (some e.2, st.cache.filter
                (fun p => !(p.1 == "stream:" ++ sha1Hex (text ++ normalizeSpeedStream speed)))
                ++ [e]) := by
            unfold lruGet
            rw [hfind]
          unfold streamRequestBody at hok
          rw [if_neg hlen] at hok
          simp only [hhit, if_true, hget] at hok
          cases he2 : e.2 with
          | marker => rw [he2] at hok; simp at hok
          | buf bid0 =>
              rw [he2] at hok
              simp only [] at hok
              cases hlk0 : alistLookup st.bufs bid0 with
              | some b0 =>
                  rw [hlk0] at hok
                  simp only [Prod.mk.injEq, Except.ok.injEq] at hok
                  obtain ⟨hbid, hst⟩ := hok
                  subst hbid
                  rw [← hst] at hlk
                  have hlk2 : alistLookup (alistSet st.bufs bid0 { b0 with pos := 0 }) bid0 =
                      some b := hlk
                  rw [alistLookup_set_self] at hlk2
                  rw [← Option.some.injEq] at hlk2
                  cases hlk2
                  rfl
              | none =>
                  rw [hlk0] at hok
                  simp only [Prod.mk.injEq, Except.ok.injEq] at hok
                  obtain ⟨hbid, hst⟩ := hok
                  subst hbid
                  rw [← hst] at hlk
                  have hlk2 : alistLookup st.bufs bid0 = some b := hlk
                  rw [hlk0] at hlk2
                  cases hlk2
        · have hhit2 : lruContains st.cache
              ("stream:" ++ sha1Hex (text ++ normalizeSpeedStream speed)) = false := by
            simpa using hhit
          rw [streamRequestBody_miss hlen hhit2] at hok
          cases hsf : model.synthStream text (normalizeSpeedStream speed) with
          | none => rw [hsf] at hok; simp at hok
          | some bytes =>
              rw [hsf] at hok
              simp only [Prod.mk.injEq, Except.ok.injEq] at hok
              obtain ⟨hbid, hst⟩ := hok
              subst hbid
              rw [← hst] at hlk
              have hlk2 : alistLookup (alistSet st.bufs st.nextId ⟨bytes, 0⟩) st.nextId =
                  some b := hlk
              rw [alistLookup_set_self] at hlk2
              rw [← Option.some.injEq] at hlk2
              cases hlk2
              rfl
  · intro bid b hlk
    rw [drainGen_spec hlk]
    exact chunksOf_flatten (by decide) _

set_option maxRecDepth 100000 in
/-- C5 (amended) at a concrete state holding one cached one-byte buffer: an
un-interleaved drain delivers the full contents, and a fresh request leaves
the returned buffer's cursor at zero. -/
theorem C5_shared_cursor_witness :
    ((drainGen { initState with bufs := [(0, ⟨[7], 0⟩)] } 0).1).flatten = List.drop 0 [7]
    ∧ (Buffer.mk [1] 0).pos = 0 := by
  constructor
  · exact (C5_shared_cursor oneByteStreamEngine
      { initState with bufs := [(0, ⟨[7], 0⟩)] } "hi" "normal").2.2 0 ⟨[7], 0⟩ (by decide)
  · have hrun : handle_tts_streaming_request oneByteStreamEngine initState "hi" "normal" =
        (.ok initState.nextId,
         { initState with
           bufs := alistSet initState.bufs initState.nextId ⟨[1], 0⟩,
           cache := lruSet initState.cap initState.cache
             ("stream:" ++ sha1Hex ("hi" ++ normalizeSpeedStream "normal"))
             (.buf initState.nextId),
           nextId := initState.nextId + 1,
           streamCalls := initState.streamCalls + 1 }) := by
      rw [handle_stream_eq_body (by decide),
          streamRequestBody_miss (by decide) (by decide)]
      rfl
    refine (C5_shared_cursor oneByteStreamEngine initState "hi" "normal").2.1
      initState.nextId _ (Buffer.mk [1] 0) hrun ?_
    show alistLookup (alistSet initState.bufs initState.nextId ⟨[1], 0⟩) initState.nextId =
      some ⟨[1], 0⟩
    exact alistLookup_set_self _ _ _

set_option maxRecDepth 1000000 in
/-- C5 as literally stated is false: in the interleaved trace over the cached
one-byte buffer `[1]`, reader A is affected by reader B's request (the shared
cursor is reset mid-stream, so A yields the byte twice), and B — whose cursor
A then exhausts — delivers nothing; neither sequence equals the complete
buffer contents. -/
theorem C5_counterexample :
    interleavedStreamTrace = ([1, 1], [], [1])
    ∧ ([1, 1] : List Nat) ≠ [1] ∧ ([] : List Nat) ≠ [1] := by
  refine ⟨by decide, by decide, by decide⟩
